import Mathlib

/-!
Verification of the don-crawler crawl orchestration and scanning subsystem.

This file gives a shallow embedding, in Lean, of the Go functions of the
crawler that the specification talks about, and proves (or refutes) the
specified properties against that embedding.

Conventions used throughout:

* Go `time.Time` instants are modelled as `Int`, counting seconds since the
  Go zero time (January 1, year 1).  The Go zero `time.Time` is therefore
  the integer `0`, and `t.IsZero()` is `t = 0`.  `time.Unix(u, 0)` maps to
  `u + unixToInternal`, and `t.Unix()` maps to `t - unixToInternal`.
  Durations are in seconds.
* Go strings are Lean `String`s.  `strings.TrimSpace` is modelled for the
  ASCII whitespace characters (the header and README values involved are
  ASCII).
* `http.Header` is a list of key/value pairs with the keys already in
  canonical form, as produced by `Header.Set`/`Header.Add` at the call
  sites.
* `http.ParseTime` (HTTP date parsing, an external library routine) is a
  parameter `pht : String → Option Int` of every definition that needs it;
  all theorems hold for every such oracle, in particular for Go's.
-/

namespace DonCrawler

/-- Seconds between the Go internal epoch (year 1) and the Unix epoch. -/
def unixToInternal : Int := 62135596800

/-- Go `time.Unix u 0` as an instant in internal seconds. -/
def timeUnix (u : Int) : Int := u + unixToInternal

/-- Go `t.Unix()` for an instant in internal seconds. -/
def timeUnixSec (t : Int) : Int := t - unixToInternal

/-- ASCII whitespace, as recognised by Go `unicode.IsSpace` on ASCII input. -/
def isGoSpace (c : Char) : Bool :=
  c = ' ' || c = '\t' || c = '\n' || c = '\x0b' || c = '\x0c' || c = '\r'

/-- Go `strings.TrimSpace` (restricted to ASCII whitespace). -/
def trimSpace (s : String) : String :=
  String.mk (((s.toList.dropWhile isGoSpace).reverse.dropWhile isGoSpace).reverse)

/-- Splitting accumulator: pieces of `cs` separated by `sep`, with the
current piece collected in reverse in `acc`. -/
def splitOnCharAux (sep : Char) : List Char → List Char → List (List Char)
  | [], acc => [acc.reverse]
  | c :: rest, acc =>
    if c = sep then acc.reverse :: splitOnCharAux sep rest []
    else splitOnCharAux sep rest (c :: acc)

/-- Go `strings.Split(s, sep)` for the single-character separators used at
the call sites (`","`, `"\n"`, `"/"`). -/
def goSplit (sep : Char) (s : String) : List String :=
  (splitOnCharAux sep s.toList []).map String.mk

/-- Decimal digits of a candidate integer literal; `none` when a character
is not a digit or the string is empty. -/
def parseDecDigits : List Char → Option Nat
  | [] => none
  | cs => cs.foldl
      (fun acc c =>
        match acc with
        | none => none
        | some n => if c.isDigit then some (n * 10 + (c.toNat - '0'.toNat)) else none)
      (some 0)

/-- Go `strconv.ParseInt(s, 10, 64)`: optional sign, decimal digits,
64-bit range check; `none` on any parse or range error. -/
def strconvParseInt (s : String) : Option Int :=
  let cs := s.toList
  let (neg, digits) :=
    match cs with
    | '-' :: rest => (true, rest)
    | '+' :: rest => (false, rest)
    | rest => (false, rest)
  match parseDecDigits digits with
  | none => none
  | some n =>
    let v : Int := if neg then -(n : Int) else (n : Int)
    if v < -(2 ^ 63) || v > 2 ^ 63 - 1 then none else some v

/-- An `http.Header`: key/value pairs, keys already canonical.  A repeated
key models repeated `Add` calls. -/
def Header := List (String × String)

/-- Go `headers.Values(key)`: every value stored under `key`, in order. -/
def Header.values (h : Header) (key : String) : List String :=
  (List.filter (fun p => p.1 == key) h).map (fun p => p.2)

/-! ## common/rate_limit_headers.go — `RateLimitResetFromHeaders`

Embedding of the hardened header parser (the snapshot with the
`consider`/`latestReset` fold, 24h bound and `Retry-After` validation). -/

/-- Go constant `maxRateLimitResetDelay = 24 * time.Hour`, in seconds. -/
def maxRateLimitResetDelay : Int := 24 * 60 * 60

/-- Go constant `maxRetryAfterSeconds = int64(maxRateLimitResetDelay / time.Second)`. -/
def maxRetryAfterSeconds : Int := maxRateLimitResetDelay

/-- The `consider` closure of `RateLimitResetFromHeaders`: ignore the zero
instant and instants past `maxAccepted`; otherwise keep the latest. -/
def consider (maxAccepted latest cand : Int) : Int :=
  if cand = 0 || cand > maxAccepted then latest
  else if latest = 0 || cand > latest then cand
  else latest

/-- Go `retryAfterReset(raw, now)`: trimmed delta-seconds (rejecting
non-positive or overflowing values) or an HTTP date. -/
def retryAfterReset (pht : String → Option Int) (raw : String) (now : Int) : Option Int :=
  let value := trimSpace raw
  if value = "" then none
  else
    match strconvParseInt value with
    | some seconds =>
      if seconds ≤ 0 || seconds > maxRetryAfterSeconds then none
      else some (now + seconds)
    | none => pht value

/-- The candidates fed to `consider` from the `RateLimit-Reset` and
`X-RateLimit-Reset` headers: every value, split on commas, trimmed,
parsed as Unix seconds. -/
def resetHeaderCandidates (headers : Header) : List Int :=
  (["RateLimit-Reset", "X-RateLimit-Reset"].flatMap fun key =>
    (headers.values key).flatMap fun raw =>
      (goSplit ',' raw).filterMap fun piece =>
        let value := trimSpace piece
        if value = "" then none
        else (strconvParseInt value).map timeUnix)

/-- The candidates fed to `consider` from the `Retry-After` header: each
whole header value through `retryAfterReset` (the code does not split
`Retry-After` values on commas — HTTP dates contain commas). -/
def retryAfterCandidates (pht : String → Option Int) (headers : Header) (now : Int) :
    List Int :=
  (headers.values "Retry-After").filterMap fun raw => retryAfterReset pht raw now

/-- Go `common.RateLimitResetFromHeaders(headers)` at instant `now`:
fold `consider` over all candidates, in source order, starting from the
zero instant; report `(zero, false)` when nothing was kept. -/
def RateLimitResetFromHeaders (pht : String → Option Int) (headers : Header) (now : Int) :
    Int × Bool :=
  let maxAccepted := now + maxRateLimitResetDelay
  let latestReset :=
    (resetHeaderCandidates headers ++ retryAfterCandidates pht headers now).foldl
      (consider maxAccepted) 0
  if latestReset = 0 then (0, false) else (latestReset, true)

/-! Spec-side description for claim C4 (amended): the parser keeps, out of
all parsed candidates, those that are neither the zero instant nor more
than 24 hours in the future, and returns the latest of them. -/

/-- A candidate instant the claim counts as valid at instant `now`. -/
def validResetCandidate (now t : Int) : Bool :=
  decide (t ≠ 0) && decide (t ≤ now + maxRateLimitResetDelay)

/-- All candidate instants of a header set, per the (amended) claim:
comma-split values of the two reset headers, whole values of
`Retry-After`. -/
def claimResetCandidates (pht : String → Option Int) (headers : Header) (now : Int) :
    List Int :=
  resetHeaderCandidates headers ++ retryAfterCandidates pht headers now

/-- Spec-side reading of the ORIGINAL claim C4, which also splits
`Retry-After` values on commas before parsing each piece as
delta-seconds or a date. -/
def claimResetCandidatesCommaSplit (pht : String → Option Int) (headers : Header)
    (now : Int) : List Int :=
  resetHeaderCandidates headers ++
    ((headers.values "Retry-After").flatMap fun raw =>
      (goSplit ',' raw).filterMap fun piece => retryAfterReset pht piece now)

/-- Go's `http.ParseTime` on strings that are not HTTP dates (such as
numeric or comma-joined delta lists) fails; this oracle stands for that
behaviour on such inputs. -/
def noHTTPDate : String → Option Int := fun _ => none

/-- Validity test used by the `consider` fold, at an arbitrary cutoff. -/
def considerValid (maxAccepted t : Int) : Bool :=
  decide (t ≠ 0) && decide (t ≤ maxAccepted)

theorem validResetCandidate_eq (now t : Int) :
    validResetCandidate now t = considerValid (now + maxRateLimitResetDelay) t := rfl

theorem consider_foldl_ne (maxA : Int) (l : List Int) (acc : Int) (hacc : acc ≠ 0) :
    l.foldl (consider maxA) acc ≠ 0 ∧ acc ≤ l.foldl (consider maxA) acc ∧
      (l.foldl (consider maxA) acc = acc ∨
        l.foldl (consider maxA) acc ∈ l.filter (considerValid maxA)) ∧
      ∀ x ∈ l.filter (considerValid maxA), x ≤ l.foldl (consider maxA) acc := by
  induction l generalizing acc with
  | nil => exact ⟨hacc, le_refl _, Or.inl rfl, by simp⟩
  | cons c tl ih =>
    by_cases hcv : considerValid maxA c
    · have hc0 : ¬(c = 0 || c > maxA) = true := by
        simp only [considerValid, Bool.and_eq_true, decide_eq_true_eq] at hcv
        simp [hcv.1, not_lt.mpr hcv.2]
      by_cases hgt : c > acc
      · have hstep : consider maxA acc c = c := by
          simp [consider, hc0, hgt]
        have hcne : c ≠ 0 := by
          simp only [considerValid, Bool.and_eq_true, decide_eq_true_eq] at hcv
          exact hcv.1
        obtain ⟨h1, h2, h3, h4⟩ := ih c hcne
        refine ⟨by simpa [hstep] using h1, ?_, ?_, ?_⟩
        · simpa [hstep] using le_trans (le_of_lt hgt) h2
        · simp only [List.foldl_cons, hstep, List.filter_cons, hcv, if_true]
          rcases h3 with h3 | h3
          · exact Or.inr (by simp [h3])
          · exact Or.inr (by simp [h3])
        · intro x hx
          simp only [List.filter_cons, hcv, if_true, List.mem_cons] at hx
          rcases hx with rfl | hx
          · simpa [hstep] using h2
          · simpa [hstep] using h4 x hx
      · have hstep : consider maxA acc c = acc := by
          simp [consider, hc0, hgt, hacc]
        obtain ⟨h1, h2, h3, h4⟩ := ih acc hacc
        refine ⟨by simpa [hstep] using h1, by simpa [hstep] using h2, ?_, ?_⟩
        · simp only [List.foldl_cons, hstep, List.filter_cons, hcv, if_true]
          rcases h3 with h3 | h3
          · exact Or.inl h3
          · exact Or.inr (by simp [h3])
        · intro x hx
          simp only [List.filter_cons, hcv, if_true, List.mem_cons] at hx
          rcases hx with rfl | hx
          · have := le_trans (not_lt.mp hgt) h2
            simpa [hstep] using this
          · simpa [hstep] using h4 x hx
    · have hstep : consider maxA acc c = acc := by
        simp only [considerValid, Bool.and_eq_true, decide_eq_true_eq, not_and_or] at hcv
        rcases hcv with hcv | hcv
        · simp only [ne_eq, not_not] at hcv
          simp [consider, hcv]
        · simp [consider, not_le.mp hcv]
      obtain ⟨h1, h2, h3, h4⟩ := ih acc hacc
      refine ⟨by simpa [hstep] using h1, by simpa [hstep] using h2, ?_, ?_⟩
      · simp only [List.foldl_cons, hstep, List.filter_cons, hcv, if_true]
        rcases h3 with h3 | h3
        · exact Or.inl h3
        · exact Or.inr h3
      · intro x hx
        simp only [List.filter_cons, hcv, if_false] at hx
        simpa [hstep] using h4 x hx

theorem consider_foldl_zero (maxA : Int) (l : List Int) :
    (l.filter (considerValid maxA) = [] → l.foldl (consider maxA) 0 = 0) ∧
      (l.filter (considerValid maxA) ≠ [] →
        l.foldl (consider maxA) 0 ∈ l.filter (considerValid maxA) ∧
          ∀ x ∈ l.filter (considerValid maxA), x ≤ l.foldl (consider maxA) 0) := by
  induction l with
  | nil => exact ⟨fun _ => rfl, fun h => absurd rfl h⟩
  | cons c tl ih =>
    by_cases hcv : considerValid maxA c
    · have hc0 : ¬(c = 0 || c > maxA) = true := by
        simp only [considerValid, Bool.and_eq_true, decide_eq_true_eq] at hcv
        simp [hcv.1, not_lt.mpr hcv.2]
      have hcne : c ≠ 0 := by
        simp only [considerValid, Bool.and_eq_true, decide_eq_true_eq] at hcv
        exact hcv.1
      have hstep : consider maxA 0 c = c := by
        simp [consider, hc0]
      obtain ⟨h1, h2, h3, h4⟩ := consider_foldl_ne maxA tl c hcne
      constructor
      · intro hnil
        simp [List.filter_cons, hcv] at hnil
      · intro _
        constructor
        · simp only [List.foldl_cons, hstep, List.filter_cons, hcv, if_true]
          rcases h3 with h3 | h3
          · simp [h3]
          · simp [h3]
        · intro x hx
          simp only [List.filter_cons, hcv, if_true, List.mem_cons] at hx
          rcases hx with rfl | hx
          · simpa [hstep] using h2
          · simpa [hstep] using h4 x hx
    · have hstep : consider maxA 0 c = 0 := by
        simp only [considerValid, Bool.and_eq_true, decide_eq_true_eq, not_and_or] at hcv
        rcases hcv with hcv | hcv
        · simp only [ne_eq, not_not] at hcv
          simp [consider, hcv]
        · simp [consider, not_le.mp hcv]
      obtain ⟨h1, h2⟩ := ih
      constructor
      · intro hnil
        simp only [List.filter_cons, hcv, if_false] at hnil
        simpa [hstep] using h1 hnil
      · intro hne
        simp only [List.filter_cons, hcv, if_false] at hne ⊢
        obtain ⟨h2a, h2b⟩ := h2 hne
        exact ⟨by simpa [hstep] using h2a, fun x hx => by simpa [hstep] using h2b x hx⟩

end DonCrawler

namespace DonCrawler

/-- Claim C4 (amended): for every header set, every HTTP-date oracle and
every instant, the parser returns the latest candidate instant that is
neither the degenerate zero instant nor more than 24 hours in the future
(with `true`), where the candidates are all comma-split `RateLimit-Reset`
and `X-RateLimit-Reset` values plus all whole `Retry-After` values
(delta-seconds accepted only in `1..86400`); when no valid candidate
remains it returns the zero instant and `false`.  (The code does not
comma-split `Retry-After` values, see the counterexample.) -/
theorem c4_header_parser_returns_latest_valid_reset (pht : String → Option Int)
    (headers : Header) (now : Int) :
    ((claimResetCandidates pht headers now).filter (validResetCandidate now) = [] →
      RateLimitResetFromHeaders pht headers now = (0, false)) ∧
    ((claimResetCandidates pht headers now).filter (validResetCandidate now) ≠ [] →
      ∃ m, m ∈ (claimResetCandidates pht headers now).filter (validResetCandidate now) ∧
        (∀ x ∈ (claimResetCandidates pht headers now).filter (validResetCandidate now),
          x ≤ m) ∧
        RateLimitResetFromHeaders pht headers now = (m, true)) := by
  have hval : validResetCandidate now = considerValid (now + maxRateLimitResetDelay) :=
    funext fun t => validResetCandidate_eq now t
  have hzero := consider_foldl_zero (now + maxRateLimitResetDelay)
    (claimResetCandidates pht headers now)
  have hdef : RateLimitResetFromHeaders pht headers now =
      (if (claimResetCandidates pht headers now).foldl
          (consider (now + maxRateLimitResetDelay)) 0 = 0
        then ((0 : Int), false)
        else ((claimResetCandidates pht headers now).foldl
          (consider (now + maxRateLimitResetDelay)) 0, true)) := rfl
  constructor
  · intro hnil
    rw [hval] at hnil
    have h0 := hzero.1 hnil
    rw [hdef, if_pos h0]
  · intro hne
    rw [hval] at hne ⊢
    obtain ⟨hmem, hbound⟩ := hzero.2 hne
    refine ⟨(claimResetCandidates pht headers now).foldl
      (consider (now + maxRateLimitResetDelay)) 0, hmem, hbound, ?_⟩
    have hr0 : (claimResetCandidates pht headers now).foldl
        (consider (now + maxRateLimitResetDelay)) 0 ≠ 0 := by
      have := List.of_mem_filter hmem
      simp only [considerValid, Bool.and_eq_true, decide_eq_true_eq] at this
      exact this.1
    rw [hdef, if_neg hr0]

/-- Witness for C4: a header set with comma-joined `RateLimit-Reset`
values `100, 200` and a `Retry-After` of 50 seconds yields the latest
valid instant, Unix second 200. -/
theorem c4_header_parser_returns_latest_valid_reset_witness :
    ((claimResetCandidates noHTTPDate
        [("RateLimit-Reset", "100, 200"), ("Retry-After", "50")] 62135596800).filter
      (validResetCandidate 62135596800) ≠ []) ∧
    (∃ m, m ∈ (claimResetCandidates noHTTPDate
        [("RateLimit-Reset", "100, 200"), ("Retry-After", "50")] 62135596800).filter
      (validResetCandidate 62135596800) ∧
      (∀ x ∈ (claimResetCandidates noHTTPDate
          [("RateLimit-Reset", "100, 200"), ("Retry-After", "50")] 62135596800).filter
        (validResetCandidate 62135596800), x ≤ m) ∧
      RateLimitResetFromHeaders noHTTPDate
        [("RateLimit-Reset", "100, 200"), ("Retry-After", "50")] 62135596800 = (m, true)) :=
  ⟨by decide,
    (c4_header_parser_returns_latest_valid_reset noHTTPDate
      [("RateLimit-Reset", "100, 200"), ("Retry-After", "50")] 62135596800).2 (by decide)⟩

/-- Counterexample to C4 as stated: a single comma-joined `Retry-After`
value `"60, 120"` is a header set whose comma-split reading has valid
candidates (latest: `now + 120`), yet the parser returns the zero instant
and `false`, because `Retry-After` values are never comma-split. -/
theorem c4_counterexample_comma_joined_retry_after :
    RateLimitResetFromHeaders noHTTPDate [("Retry-After", "60, 120")] 1000 = (0, false) ∧
    (claimResetCandidatesCommaSplit noHTTPDate [("Retry-After", "60, 120")] 1000).filter
      (validResetCandidate 1000) = [1060, 1120] ∧
    ((0 : Int), false) ≠ ((1120 : Int), true) :=
  ⟨by decide, by decide, by decide⟩

end DonCrawler

namespace DonCrawler

/-! ## scanner — GitLab rate-limit retry loop

Embedding of `gitlabCallWithRateLimitRetry`, `gitlabRateLimitWait` and
`gitlabRateLimitReset` (scanner/gitlab.go), together with the
`RateLimitError` type and its `errors.Is` behaviour (scanner/scanner.go).
The per-process API semaphore `gitlabWithAPISlot` only bounds concurrency
of the underlying calls and does not change the value any call returns,
so a call is modelled as a function from the attempt number to its
outcome.  A `context.Context` is modelled by the instant its `Done`
channel fires (if ever) and the error it then reports. -/

/-- A `*gitlab.Response`: the status code and headers consulted by the
rate-limit detection. -/
structure GitlabResponse where
  statusCode : Int
  header : List (String × String)
deriving DecidableEq

/-- Go error values that flow through the retry loop:
the `ErrLastCommitRateLimited` sentinel, the typed `RateLimitError`
(carrying provider name and reset instant), the two context errors, a
`*gitlab.ErrorResponse` (modelled by the status codes `HasStatusCode`
reports and its embedded response), and any other error. -/
inductive GoError where
  | errLastCommitRateLimited
  | rateLimitError (provider : String) (reset : Int)
  | contextCanceled
  | deadlineExceeded
  | gitlabErrorResponse (statusCodes : List Int) (response : Option GitlabResponse)
  | message (msg : String)
deriving DecidableEq

/-- Go `errors.Is(err, target)` for the errors above: value equality,
plus `RateLimitError.Is`, which matches exactly the
`ErrLastCommitRateLimited` sentinel. -/
def goErrorIs (err target : GoError) : Bool :=
  match err, target with
  | .rateLimitError _ _, .errLastCommitRateLimited => true
  | e, t => e == t

/-- A `context.Context`: `cancelAt` is the instant the `Done` channel
fires (`none` for a context that is never cancelled), `cancelErr` is the
error `ctx.Err()` reports from then on (`context.Canceled` or
`context.DeadlineExceeded`). -/
structure GoContext where
  cancelAt : Option Int
  cancelErr : GoError

/-- Go `ctx.Err()` at instant `now`. -/
def GoContext.goErr (ctx : GoContext) (now : Int) : Option GoError :=
  match ctx.cancelAt with
  | some t => if t ≤ now then some ctx.cancelErr else none
  | none => none

/-- A context that is never cancelled. -/
def noCancelContext : GoContext := { cancelAt := none, cancelErr := .contextCanceled }

/-- Go constant `maxGitLabRateLimitRetries = 5`. -/
def maxGitLabRateLimitRetries : Nat := 5

/-- Go variable `gitLabRateLimitFallbackWait = 15 * time.Second`, in seconds. -/
def gitLabRateLimitFallbackWait : Int := 15

/-- Go `gitlabRateLimitWait(reset)` at instant `now`: `reset − now`, or the
fixed fallback when the reset is unknown or already past. -/
def gitlabRateLimitWait (now reset : Int) : Int :=
  if reset - now ≤ 0 then gitLabRateLimitFallbackWait else reset - now

/-- The `errors.As(err, &errResp)` branch of `gitlabRateLimitReset`. -/
def gitlabRateLimitResetFromErr (pht : String → Option Int) (now : Int)
    (err : Option GoError) : Int × Bool :=
  match err with
  | some (.gitlabErrorResponse statusCodes response) =>
    if statusCodes.contains 429 then
      match response with
      | some r =>
        let (reset, ok) := RateLimitResetFromHeaders pht r.header now
        if ok then (reset, true) else (0, true)
      | none => (0, true)
    else (0, false)
  | _ => (0, false)

/-- Go `gitlabRateLimitReset(resp, err)` at instant `now`: a 429 response
(or a 429 error response) is rate-limited, with the reset parsed from its
headers when possible. -/
def gitlabRateLimitReset (pht : String → Option Int) (now : Int)
    (resp : Option GitlabResponse) (err : Option GoError) : Int × Bool :=
  match resp with
  | some r =>
    if r.statusCode = 429 then
      let (reset, ok) := RateLimitResetFromHeaders pht r.header now
      if ok then (reset, true) else (0, true)
    else gitlabRateLimitResetFromErr pht now err
  | none => gitlabRateLimitResetFromErr pht now err

/-- Whether `(resp, err)` is detected as rate-limited; this is the second
component of `gitlabRateLimitReset` and does not depend on the clock. -/
def isGitlabRateLimited (resp : Option GitlabResponse) (err : Option GoError) : Bool :=
  match resp with
  | some r =>
    if r.statusCode = 429 then true
    else
      match err with
      | some (.gitlabErrorResponse statusCodes _) => statusCodes.contains 429
      | _ => false
  | none =>
    match err with
    | some (.gitlabErrorResponse statusCodes _) => statusCodes.contains 429
    | _ => false

theorem gitlabRateLimitResetFromErr_snd (pht : String → Option Int) (now : Int)
    (err : Option GoError) :
    (gitlabRateLimitResetFromErr pht now err).2 = isGitlabRateLimited none err := by
  match err with
  | none => rfl
  | some .errLastCommitRateLimited => rfl
  | some (.rateLimitError _ _) => rfl
  | some .contextCanceled => rfl
  | some .deadlineExceeded => rfl
  | some (.message _) => rfl
  | some (.gitlabErrorResponse statusCodes response) =>
    simp only [gitlabRateLimitResetFromErr, isGitlabRateLimited]
    by_cases h : statusCodes.contains 429 = true
    · have hmem : 429 ∈ statusCodes := by simpa using h
      rw [if_pos h]
      match response with
      | none => simp [h, hmem]
      | some r =>
        rcases hr : RateLimitResetFromHeaders pht r.header now with ⟨reset, ok⟩
        cases ok
        · simp [hr, h, hmem]
        · simp [hr, h, hmem]
    · rw [if_neg h]
      rw [Bool.not_eq_true] at h
      have hmem : 429 ∉ statusCodes := by simpa using h
      simp [h, hmem]

theorem gitlabRateLimitReset_snd (pht : String → Option Int) (now : Int)
    (resp : Option GitlabResponse) (err : Option GoError) :
    (gitlabRateLimitReset pht now resp err).2 = isGitlabRateLimited resp err := by
  match resp with
  | none => exact gitlabRateLimitResetFromErr_snd pht now err
  | some r =>
    by_cases h429 : r.statusCode = 429
    · simp only [gitlabRateLimitReset, isGitlabRateLimited, if_pos h429]
      rcases hr : RateLimitResetFromHeaders pht r.header now with ⟨reset, ok⟩
      cases ok
      · simp [hr]
      · simp [hr]
    · simp only [gitlabRateLimitReset, isGitlabRateLimited, if_neg h429]
      exact gitlabRateLimitResetFromErr_snd pht now err

/-- The outcome of one underlying GitLab API call. -/
structure GitlabAttempt (T : Type) where
  result : T
  resp : Option GitlabResponse
  err : Option GoError

/-- The observable outcome of one run of the retry loop: the returned
triple, the number of underlying calls actually issued, and the instant
the loop returned. -/
structure RetryRun (T : Type) where
  result : T
  resp : Option GitlabResponse
  err : Option GoError
  callsMade : Nat
  finalTime : Int
deriving DecidableEq

/-- One iteration step of the `for attempt := 0; attempt <= 5` loop of
`gitlabCallWithRateLimitRetry`; `remaining` is the number of retries
still allowed after the current attempt (`5 - attempt`).  The
context-aware sleep is the `select` on `ctx.Done()` and
`time.After(wait)`: cancellation strictly inside the wait interrupts it
at the cancellation instant, otherwise the wait completes and the next
iteration observes `ctx.Err()`. -/
def gitlabRetryAux (pht : String → Option Int) (ctx : GoContext) {T : Type}
    (call : Nat → GitlabAttempt T) :
    Nat → Nat → T → Option GitlabResponse → Int → Nat → RetryRun T
  | remaining, attempt, res, resp, now, calls =>
    match ctx.goErr now with
    | some e => ⟨res, resp, some e, calls, now⟩
    | none =>
      let a := call attempt
      match a.err with
      | none => ⟨a.result, a.resp, none, calls + 1, now⟩
      | some e =>
        let rr := gitlabRateLimitReset pht now a.resp (some e)
        if rr.2 = false then ⟨a.result, a.resp, some e, calls + 1, now⟩
        else
          match remaining with
          | 0 => ⟨a.result, a.resp, some (.rateLimitError "GitLab" rr.1), calls + 1, now⟩
          | r + 1 =>
            let wait := gitlabRateLimitWait now rr.1
            match ctx.cancelAt with
            | some tc =>
              if tc < now + wait then ⟨a.result, a.resp, some ctx.cancelErr, calls + 1, tc⟩
              else gitlabRetryAux pht ctx call r (attempt + 1) a.result a.resp (now + wait)
                (calls + 1)
            | none =>
              gitlabRetryAux pht ctx call r (attempt + 1) a.result a.resp (now + wait)
                (calls + 1)

/-- Go `gitlabCallWithRateLimitRetry(ctx, operation, call)` started at
instant `t0`; `zero` is the zero value of the result type. -/
def gitlabCallWithRateLimitRetry (pht : String → Option Int) (ctx : GoContext) {T : Type}
    (call : Nat → GitlabAttempt T) (zero : T) (t0 : Int) : RetryRun T :=
  gitlabRetryAux pht ctx call maxGitLabRateLimitRetries 0 zero none t0 0

end DonCrawler

namespace DonCrawler

theorem noCancelContext_goErr (now : Int) : noCancelContext.goErr now = none := rfl

theorem noCancelContext_cancelAt : noCancelContext.cancelAt = none := rfl

theorem gitlabRetryAux_success (pht : String → Option Int) {T : Type}
    (call : Nat → GitlabAttempt T) (k : Nat) :
    ∀ (remaining attempt : Nat) (res : T) (resp : Option GitlabResponse) (now : Int)
      (calls : Nat), k ≤ remaining →
      (∀ i, i < k → (call (attempt + i)).err.isSome ∧
        isGitlabRateLimited (call (attempt + i)).resp (call (attempt + i)).err = true) →
      (call (attempt + k)).err = none →
      ∃ t, gitlabRetryAux pht noCancelContext call remaining attempt res resp now calls =
        ⟨(call (attempt + k)).result, (call (attempt + k)).resp, none, calls + k + 1, t⟩ := by
  induction k with
  | zero =>
    intro remaining attempt res resp now calls _ _ hsucc
    refine ⟨now, ?_⟩
    rw [gitlabRetryAux]
    simp only [noCancelContext_goErr]
    simp only [Nat.add_zero] at hsucc
    simp [hsucc]
  | succ j ih =>
    intro remaining attempt res resp now calls hk hrl hsucc
    obtain ⟨r, rfl⟩ : ∃ r, remaining = r + 1 := by
      cases remaining with
      | zero => omega
      | succ r => exact ⟨r, rfl⟩
    have h0 := hrl 0 (Nat.succ_pos j)
    simp only [Nat.add_zero] at h0
    obtain ⟨e, he⟩ := Option.isSome_iff_exists.mp h0.1
    have hrr : (gitlabRateLimitReset pht now (call attempt).resp (some e)).2 = true := by
      rw [gitlabRateLimitReset_snd, ← he]
      exact h0.2
    have step := ih r (attempt + 1) (call attempt).result (call attempt).resp
      (now + gitlabRateLimitWait now
        (gitlabRateLimitReset pht now (call attempt).resp (some e)).1)
      (calls + 1) (by omega)
      (fun i hi => by
        have := hrl (i + 1) (by omega)
        simpa [Nat.add_assoc, Nat.add_comm 1 i] using this)
      (by
        have : attempt + 1 + j = attempt + (j + 1) := by omega
        rw [this]
        exact hsucc)
    obtain ⟨t, ht⟩ := step
    refine ⟨t, ?_⟩
    rw [gitlabRetryAux]
    simp only [noCancelContext_goErr]
    simp only [he, hrr]
    simp only [Bool.true_eq_false, if_false]
    rw [ht]
    have h1 : attempt + 1 + j = attempt + (j + 1) := by omega
    have h2 : calls + 1 + j + 1 = calls + (j + 1) + 1 := by omega
    rw [h1, h2]
    simp only [noCancelContext_cancelAt]

theorem gitlabRetryAux_exhaust (pht : String → Option Int) {T : Type}
    (call : Nat → GitlabAttempt T) :
    ∀ (remaining attempt : Nat) (res : T) (resp : Option GitlabResponse) (now : Int)
      (calls : Nat),
      (∀ i, i ≤ remaining → (call (attempt + i)).err.isSome ∧
        isGitlabRateLimited (call (attempt + i)).resp (call (attempt + i)).err = true) →
      ∃ rst t,
        gitlabRetryAux pht noCancelContext call remaining attempt res resp now calls =
          ⟨(call (attempt + remaining)).result, (call (attempt + remaining)).resp,
            some (.rateLimitError "GitLab" rst), calls + remaining + 1, t⟩ := by
  intro remaining
  induction remaining with
  | zero =>
    intro attempt res resp now calls hrl
    have h0 := hrl 0 (le_refl 0)
    simp only [Nat.add_zero] at h0 ⊢
    obtain ⟨e, he⟩ := Option.isSome_iff_exists.mp h0.1
    have hrr : (gitlabRateLimitReset pht now (call attempt).resp (some e)).2 = true := by
      rw [gitlabRateLimitReset_snd, ← he]
      exact h0.2
    refine ⟨(gitlabRateLimitReset pht now (call attempt).resp (some e)).1, now, ?_⟩
    rw [gitlabRetryAux]
    simp only [noCancelContext_goErr]
    simp only [he, hrr]
    simp only [Bool.true_eq_false, if_false]
  | succ r ih =>
    intro attempt res resp now calls hrl
    have h0 := hrl 0 (Nat.zero_le _)
    simp only [Nat.add_zero] at h0
    obtain ⟨e, he⟩ := Option.isSome_iff_exists.mp h0.1
    have hrr : (gitlabRateLimitReset pht now (call attempt).resp (some e)).2 = true := by
      rw [gitlabRateLimitReset_snd, ← he]
      exact h0.2
    obtain ⟨rst, t, ht⟩ := ih (attempt + 1) (call attempt).result (call attempt).resp
      (now + gitlabRateLimitWait now
        (gitlabRateLimitReset pht now (call attempt).resp (some e)).1)
      (calls + 1)
      (fun i hi => by
        have := hrl (i + 1) (by omega)
        simpa [Nat.add_assoc, Nat.add_comm 1 i] using this)
    refine ⟨rst, t, ?_⟩
    rw [gitlabRetryAux]
    simp only [noCancelContext_goErr]
    simp only [he, hrr]
    simp only [Bool.true_eq_false, if_false]
    rw [ht]
    have h1 : attempt + 1 + r = attempt + (r + 1) := by omega
    have h2 : calls + 1 + r + 1 = calls + (r + 1) + 1 := by omega
    rw [h1, h2]
    simp only [noCancelContext_cancelAt]

end DonCrawler

namespace DonCrawler

/-- Claim C3: for every call funnelled through the GitLab rate-limit retry
loop (with an uncancelled context): a successful invocation returns its
result immediately after one call; a rate-limited invocation is retried
until success or until the maximum retry count (5) is reached; on
exhaustion the returned error is a `RateLimitError` whose `Provider` is
"GitLab" and which matches the `ErrLastCommitRateLimited` sentinel under
`errors.Is`; a non-rate-limit error propagates immediately after a single
call. -/
theorem c3_gitlab_retry_loop {T : Type} (pht : String → Option Int)
    (call : Nat → GitlabAttempt T) (zero : T) (t0 : Int) :
    ((call 0).err = none →
      gitlabCallWithRateLimitRetry pht noCancelContext call zero t0 =
        ⟨(call 0).result, (call 0).resp, none, 1, t0⟩) ∧
    (∀ k, k ≤ maxGitLabRateLimitRetries →
      (∀ i, i < k → (call i).err.isSome ∧
        isGitlabRateLimited (call i).resp (call i).err = true) →
      (call k).err = none →
      ∃ t, gitlabCallWithRateLimitRetry pht noCancelContext call zero t0 =
        ⟨(call k).result, (call k).resp, none, k + 1, t⟩) ∧
    ((∀ i, i ≤ maxGitLabRateLimitRetries → (call i).err.isSome ∧
        isGitlabRateLimited (call i).resp (call i).err = true) →
      ∃ rst t, gitlabCallWithRateLimitRetry pht noCancelContext call zero t0 =
          ⟨(call maxGitLabRateLimitRetries).result, (call maxGitLabRateLimitRetries).resp,
            some (.rateLimitError "GitLab" rst), maxGitLabRateLimitRetries + 1, t⟩ ∧
        goErrorIs (.rateLimitError "GitLab" rst) .errLastCommitRateLimited = true) ∧
    (∀ e, (call 0).err = some e →
      isGitlabRateLimited (call 0).resp (call 0).err = false →
      gitlabCallWithRateLimitRetry pht noCancelContext call zero t0 =
        ⟨(call 0).result, (call 0).resp, some e, 1, t0⟩) := by
  refine ⟨?_, ?_, ?_, ?_⟩
  · intro hsucc
    rw [gitlabCallWithRateLimitRetry, gitlabRetryAux]
    simp only [noCancelContext_goErr]
    simp [hsucc]
  · intro k hk hrl hsucc
    obtain ⟨t, ht⟩ := gitlabRetryAux_success pht call k maxGitLabRateLimitRetries 0 zero none
      t0 0 hk (fun i hi => by simpa using hrl i hi) (by simpa using hsucc)
    refine ⟨t, ?_⟩
    rw [gitlabCallWithRateLimitRetry, ht]
    simp
  · intro hrl
    obtain ⟨rst, t, ht⟩ := gitlabRetryAux_exhaust pht call maxGitLabRateLimitRetries 0 zero
      none t0 0 (fun i hi => by simpa using hrl i hi)
    refine ⟨rst, t, ?_, rfl⟩
    rw [gitlabCallWithRateLimitRetry, ht]
    simp
  · intro e he hnorl
    have hrr : (gitlabRateLimitReset pht t0 (call 0).resp (some e)).2 = false := by
      rw [gitlabRateLimitReset_snd, ← he]
      exact hnorl
    rw [gitlabCallWithRateLimitRetry, gitlabRetryAux]
    simp only [noCancelContext_goErr]
    simp [he, hrr]

/-- A concrete GitLab call used by the witnesses: the first attempt is
answered 429 with a Retry-After of 30 seconds, the second succeeds. -/
def witnessGitlabCall : Nat → GitlabAttempt Int := fun i =>
  if i = 0 then
    ⟨0, some ⟨429, [("Retry-After", "30")]⟩, some (.message "too many requests")⟩
  else ⟨7, none, none⟩

/-- Witness for C3: the rate-limited first attempt is retried and the
loop returns the second attempt's result after two calls. -/
theorem c3_gitlab_retry_loop_witness :
    ∃ t, gitlabCallWithRateLimitRetry noHTTPDate noCancelContext witnessGitlabCall 0 100 =
      ⟨(witnessGitlabCall 1).result, (witnessGitlabCall 1).resp, none, 1 + 1, t⟩ :=
  (c3_gitlab_retry_loop noHTTPDate witnessGitlabCall 0 100).2.1 1 (by decide)
    (fun i hi => by
      have : i = 0 := by omega
      subst this
      exact ⟨by decide, by decide⟩)
    (by decide)

/-- Claim C5: a context already cancelled before the first attempt means
the underlying call is never issued and the context's own error is
returned; a context cancelled strictly inside a rate-limit wait aborts
the wait at the cancellation instant — strictly before the wait's nominal
duration has elapsed — and returns the context's own error. -/
theorem c5_gitlab_retry_context_cancellation {T : Type} (pht : String → Option Int)
    (call : Nat → GitlabAttempt T) (zero : T) (t0 : Int) (ctx : GoContext) :
    (∀ tc, ctx.cancelAt = some tc → tc ≤ t0 →
      gitlabCallWithRateLimitRetry pht ctx call zero t0 =
        ⟨zero, none, some ctx.cancelErr, 0, t0⟩) ∧
    (∀ tc e, ctx.cancelAt = some tc → t0 < tc →
      (call 0).err = some e →
      isGitlabRateLimited (call 0).resp (call 0).err = true →
      tc < t0 + gitlabRateLimitWait t0 (gitlabRateLimitReset pht t0 (call 0).resp (some e)).1 →
      gitlabCallWithRateLimitRetry pht ctx call zero t0 =
          ⟨(call 0).result, (call 0).resp, some ctx.cancelErr, 1, tc⟩ ∧
        tc - t0 <
          gitlabRateLimitWait t0 (gitlabRateLimitReset pht t0 (call 0).resp (some e)).1) := by
  constructor
  · intro tc hcat hle
    rw [gitlabCallWithRateLimitRetry, gitlabRetryAux]
    have : ctx.goErr t0 = some ctx.cancelErr := by
      simp [GoContext.goErr, hcat, hle]
    simp [this]
  · intro tc e hcat hlt he hrl hwin
    have hgo : ctx.goErr t0 = none := by
      simp [GoContext.goErr, hcat, not_le.mpr hlt]
    have hrr : (gitlabRateLimitReset pht t0 (call 0).resp (some e)).2 = true := by
      rw [gitlabRateLimitReset_snd, ← he]
      exact hrl
    constructor
    · rw [gitlabCallWithRateLimitRetry, gitlabRetryAux]
      simp only [hgo]
      simp only [maxGitLabRateLimitRetries]
      simp [he, hrr, hcat, hwin]
    · omega

/-- A call whose every attempt is rate limited with `Retry-After: 120`. -/
def witnessRateLimitedCall : Nat → GitlabAttempt Int := fun _ =>
  ⟨0, some ⟨429, [("Retry-After", "120")]⟩, some (.message "rate limited")⟩

/-- Witness for C5: a context cancelled at instant 0 skips the call
entirely, and a 20-millisecond-style deadline (cancellation at instant 1)
aborts the 120-second wait at instant 1. -/
theorem c5_gitlab_retry_context_cancellation_witness :
    (gitlabCallWithRateLimitRetry noHTTPDate ⟨some 0, .contextCanceled⟩
        witnessRateLimitedCall 0 5 =
      ⟨0, none, some GoError.contextCanceled, 0, 5⟩) ∧
    (gitlabCallWithRateLimitRetry noHTTPDate ⟨some 1, .deadlineExceeded⟩
          witnessRateLimitedCall 0 0 =
        ⟨(witnessRateLimitedCall 0).result, (witnessRateLimitedCall 0).resp,
          some GoError.deadlineExceeded, 1, 1⟩ ∧
      (1 : Int) - 0 < gitlabRateLimitWait 0
        (gitlabRateLimitReset noHTTPDate 0 (witnessRateLimitedCall 0).resp
          (some (.message "rate limited"))).1) :=
  ⟨(c5_gitlab_retry_context_cancellation noHTTPDate witnessRateLimitedCall 0 5
      ⟨some 0, .contextCanceled⟩).1 0 rfl (by decide),
    (c5_gitlab_retry_context_cancellation noHTTPDate witnessRateLimitedCall 0 0
      ⟨some 1, .deadlineExceeded⟩).2 1 (.message "rate limited") rfl (by decide) rfl
      (by decide) (by decide)⟩

end DonCrawler

namespace DonCrawler

/-! ## internal/githubapp/token.go — credential provider

The provider's mutable state is the cached token and expiry, mutated only
under `p.mu`.  `Token` takes the lock for the fast-path read, releases
it, and `refreshToken` holds the lock for its whole body (double-checked
refresh, network exchange included).  A concurrent execution of N
`Token` calls is therefore an interleaving of atomic sections, modelled
by the step relation `TokenStep` below.  The network exchange (JWT
minting, POST, response decoding) is the oracle `exchange`; all callers
of one concurrent burst run at one instant `now`. -/

/-- Go constant `tokenRefreshThreshold = 2 * time.Minute`, in seconds. -/
def tokenRefreshThreshold : Int := 120

/-- The provider's cached state: `accessTok` and `expiresAt` (empty token
and the zero instant before the first refresh). -/
structure TokenCache where
  accessTok : String
  expiresAt : Int
deriving DecidableEq

/-- The validity check of both `Token` and `refreshToken`:
`p.accessTok != "" && time.Until(p.expiresAt) > tokenRefreshThreshold`. -/
def tokenValid (s : TokenCache) (now : Int) : Bool :=
  decide (s.accessTok ≠ "") && decide (s.expiresAt - now > tokenRefreshThreshold)

/-- The fast path of `Token`: under the lock, return the cached pair when
still valid. -/
def tokenFastPath (s : TokenCache) (now : Int) : Option (String × Int) :=
  if tokenValid s now then some (s.accessTok, s.expiresAt) else none

/-- The `refreshToken` critical section: re-check validity under the lock
(double-checked pattern); only when still invalid, perform the exchange
and store its result.  Returns the new state, the number of exchanges
performed (0 or 1) and the value returned to the caller. -/
def refreshTokenStep (s : TokenCache) (now : Int)
    (exchange : Except GoError (String × Int)) :
    TokenCache × Nat × Except GoError (String × Int) :=
  if tokenValid s now then (s, 0, .ok (s.accessTok, s.expiresAt))
  else
    match exchange with
    | .error e => (s, 1, .error e)
    | .ok (tok, exp) => (⟨tok, exp⟩, 1, .ok (tok, exp))

/-- A single sequential `Token` call: fast path, else refresh. -/
def providerToken (s : TokenCache) (now : Int)
    (exchange : Except GoError (String × Int)) :
    TokenCache × Nat × Except GoError (String × Int) :=
  match tokenFastPath s now with
  | some v => (s, 0, .ok v)
  | none => refreshTokenStep s now exchange

/-- Where one concurrent caller of `Token` currently is: before its
fast-path section, after a failed fast path (about to run
`refreshToken`), or finished with a result. -/
inductive CallerPhase where
  | ready
  | needRefresh
  | finished (res : Except GoError (String × Int))

/-- Global state of a concurrent burst of `n` `Token` calls: the shared
cache, the number of exchanges performed so far, and each caller's
phase. -/
structure TokenBurst (n : Nat) where
  cache : TokenCache
  exchanges : Nat
  callers : Fin n → CallerPhase

/-- One atomic section of some caller, at the shared instant `now`. -/
inductive TokenStep (n : Nat) (now : Int) (exchange : Except GoError (String × Int)) :
    TokenBurst n → TokenBurst n → Prop
  | fastHit (st : TokenBurst n) (i : Fin n) :
      st.callers i = .ready → tokenValid st.cache now = true →
      TokenStep n now exchange st
        ⟨st.cache, st.exchanges,
          Function.update st.callers i
            (.finished (.ok (st.cache.accessTok, st.cache.expiresAt)))⟩
  | fastMiss (st : TokenBurst n) (i : Fin n) :
      st.callers i = .ready → tokenValid st.cache now = false →
      TokenStep n now exchange st
        ⟨st.cache, st.exchanges, Function.update st.callers i .needRefresh⟩
  | refresh (st : TokenBurst n) (i : Fin n) :
      st.callers i = .needRefresh →
      TokenStep n now exchange st
        ⟨(refreshTokenStep st.cache now exchange).1,
          st.exchanges + (refreshTokenStep st.cache now exchange).2.1,
          Function.update st.callers i (.finished (refreshTokenStep st.cache now exchange).2.2)⟩

/-- Reachability of burst states through caller sections. -/
def TokenReachable (n : Nat) (now : Int) (exchange : Except GoError (String × Int)) :
    TokenBurst n → TokenBurst n → Prop :=
  Relation.ReflTransGen (TokenStep n now exchange)

/-- The burst invariant: either nothing has been exchanged yet, the cache
is untouched, and nobody has finished; or exactly one exchange happened,
the cache holds its result, and every finished caller got that result. -/
def burstInvariant (n : Nat) (_now : Int) (tok : String) (exp : Int) (s0 : TokenCache)
    (st : TokenBurst n) : Prop :=
  (st.exchanges = 0 ∧ st.cache = s0 ∧ ∀ i r, st.callers i ≠ .finished r) ∨
  (st.exchanges = 1 ∧ st.cache = ⟨tok, exp⟩ ∧
    ∀ i r, st.callers i = .finished r → r = .ok (tok, exp))

theorem burstInvariant_step (n : Nat) (now : Int) (tok : String) (exp : Int)
    (s0 : TokenCache) (hstale : tokenValid s0 now = false)
    (hfresh : tokenValid ⟨tok, exp⟩ now = true)
    (st st' : TokenBurst n) (hstep : TokenStep n now (.ok (tok, exp)) st st')
    (hinv : burstInvariant n now tok exp s0 st) :
    burstInvariant n now tok exp s0 st' := by
  cases hstep with
  | fastHit i hready hvalid =>
    rcases hinv with ⟨h1, h2, h3⟩ | ⟨h1, h2, h3⟩
    · rw [h2] at hvalid
      rw [hstale] at hvalid
      exact absurd hvalid (by simp)
    · refine Or.inr ⟨h1, h2, ?_⟩
      intro j r hj
      by_cases hij : j = i
      · subst hij
        simp only [Function.update_same] at hj
        simp only [CallerPhase.finished.injEq] at hj
        rw [← hj, h2]
      · simp only [Function.update_noteq hij] at hj
        exact h3 j r hj
  | fastMiss i hready hinvalid =>
    rcases hinv with ⟨h1, h2, h3⟩ | ⟨h1, h2, h3⟩
    · refine Or.inl ⟨h1, h2, ?_⟩
      intro j r hj
      by_cases hij : j = i
      · subst hij
        simp only [Function.update_same] at hj
        exact absurd hj (by simp)
      · simp only [Function.update_noteq hij] at hj
        exact h3 j r hj
    · refine Or.inr ⟨h1, h2, ?_⟩
      intro j r hj
      by_cases hij : j = i
      · subst hij
        simp only [Function.update_same] at hj
        exact absurd hj (by simp)
      · simp only [Function.update_noteq hij] at hj
        exact h3 j r hj
  | refresh i hneed =>
    rcases hinv with ⟨h1, h2, h3⟩ | ⟨h1, h2, h3⟩
    · have hrs : refreshTokenStep st.cache now (.ok (tok, exp)) =
          (⟨tok, exp⟩, 1, .ok (tok, exp)) := by
        rw [h2]
        simp [refreshTokenStep, hstale]
      refine Or.inr ⟨by simp [hrs, h1], by simp [hrs], ?_⟩
      intro j r hj
      by_cases hij : j = i
      · subst hij
        simp only [Function.update_same] at hj
        rw [hrs] at hj
        simp only [CallerPhase.finished.injEq] at hj
        exact hj.symm
      · simp only [Function.update_noteq hij] at hj
        exact absurd hj (h3 j r)
    · have hrs : refreshTokenStep st.cache now (.ok (tok, exp)) =
          (⟨tok, exp⟩, 0, .ok (tok, exp)) := by
        rw [h2]
        simp [refreshTokenStep, hfresh]
      refine Or.inr ⟨by simp [hrs, h1], by simp [hrs], ?_⟩
      intro j r hj
      by_cases hij : j = i
      · subst hij
        simp only [Function.update_same] at hj
        rw [hrs] at hj
        simp only [CallerPhase.finished.injEq] at hj
        exact hj.symm
      · simp only [Function.update_noteq hij] at hj
        exact h3 j r hj

theorem burstInvariant_reachable (n : Nat) (now : Int) (tok : String) (exp : Int)
    (s0 : TokenCache) (hstale : tokenValid s0 now = false)
    (hfresh : tokenValid ⟨tok, exp⟩ now = true)
    (st : TokenBurst n)
    (hreach : TokenReachable n now (.ok (tok, exp)) ⟨s0, 0, fun _ => .ready⟩ st) :
    burstInvariant n now tok exp s0 st := by
  induction hreach with
  | refl => exact Or.inl ⟨rfl, rfl, by simp⟩
  | tail _ hstep ih =>
    exact burstInvariant_step n now tok exp s0 hstale hfresh _ _ hstep ih

end DonCrawler

namespace DonCrawler

/-- Claim C2: when N callers race into `Token` while the cache is empty or
stale, any interleaving of their lock-serialized sections performs
exactly one token exchange and every caller ends with the exchanged token
and expiry (provided the exchanged token is itself fresh); and when the
cache is valid, a `Token` call returns the cached pair with no exchange. -/
theorem c2_token_provider_single_exchange (n : Nat) (now : Int) (s0 : TokenCache)
    (tok : String) (exp : Int) (st : TokenBurst n)
    (exchange : Except GoError (String × Int)) :
    (tokenValid s0 now = false → tokenValid ⟨tok, exp⟩ now = true → 0 < n →
      TokenReachable n now (.ok (tok, exp)) ⟨s0, 0, fun _ => .ready⟩ st →
      (∀ i : Fin n, ∃ r, st.callers i = .finished r) →
      st.exchanges = 1 ∧ ∀ i : Fin n, st.callers i = .finished (.ok (tok, exp))) ∧
    (tokenValid s0 now = true →
      providerToken s0 now exchange = (s0, 0, .ok (s0.accessTok, s0.expiresAt))) := by
  constructor
  · intro hstale hfresh hn hreach hdone
    have hinv := burstInvariant_reachable n now tok exp s0 hstale hfresh st hreach
    rcases hinv with ⟨h1, h2, h3⟩ | ⟨h1, h2, h3⟩
    · obtain ⟨r, hr⟩ := hdone ⟨0, hn⟩
      exact absurd hr (h3 _ r)
    · refine ⟨h1, fun i => ?_⟩
      obtain ⟨r, hr⟩ := hdone i
      rw [hr, h3 i r hr]
  · intro hvalid
    simp [providerToken, tokenFastPath, hvalid]

/-- Witness for C2: two callers racing on an empty cache at instant 1000,
with the exchange yielding token "tok" valid until instant 2000; the
schedule is caller 0 fast-miss, caller 0 refresh (the one exchange),
caller 1 fast-hit on the freshly cached token. -/
theorem c2_token_provider_single_exchange_witness :
    (⟨⟨"tok", 2000⟩, 0 + 1,
        Function.update
          (Function.update
            (Function.update (fun _ => CallerPhase.ready) 0 CallerPhase.needRefresh) 0
            (CallerPhase.finished (Except.ok ("tok", 2000)))) 1
          (CallerPhase.finished (Except.ok ("tok", 2000)))⟩ : TokenBurst 2).exchanges = 1 ∧
    ∀ i : Fin 2,
      (⟨⟨"tok", 2000⟩, 0 + 1,
          Function.update
            (Function.update
              (Function.update (fun _ => CallerPhase.ready) 0 CallerPhase.needRefresh) 0
              (CallerPhase.finished (Except.ok ("tok", 2000)))) 1
            (CallerPhase.finished (Except.ok ("tok", 2000)))⟩ : TokenBurst 2).callers i =
        CallerPhase.finished (Except.ok ("tok", 2000)) := by
  have hreach : TokenReachable 2 1000 (.ok ("tok", 2000))
      ⟨⟨"", 0⟩, 0, fun _ => .ready⟩
      ⟨⟨"tok", 2000⟩, 0 + 1,
        Function.update
          (Function.update
            (Function.update (fun _ => CallerPhase.ready) 0 CallerPhase.needRefresh) 0
            (CallerPhase.finished (Except.ok ("tok", 2000)))) 1
          (CallerPhase.finished (Except.ok ("tok", 2000)))⟩ := by
    have s1 : TokenStep 2 1000 (.ok ("tok", 2000))
        ⟨⟨"", 0⟩, 0, fun _ => .ready⟩
        ⟨⟨"", 0⟩, 0, Function.update (fun _ => CallerPhase.ready) 0 .needRefresh⟩ :=
      TokenStep.fastMiss _ 0 rfl (by decide)
    have s2 : TokenStep 2 1000 (.ok ("tok", 2000))
        ⟨⟨"", 0⟩, 0, Function.update (fun _ => CallerPhase.ready) 0 .needRefresh⟩
        ⟨⟨"tok", 2000⟩, 0 + 1,
          Function.update
            (Function.update (fun _ => CallerPhase.ready) 0 CallerPhase.needRefresh) 0
            (CallerPhase.finished (Except.ok ("tok", 2000)))⟩ :=
      TokenStep.refresh _ 0 (by simp [Function.update_same])
    have s3 : TokenStep 2 1000 (.ok ("tok", 2000))
        ⟨⟨"tok", 2000⟩, 0 + 1,
          Function.update
            (Function.update (fun _ => CallerPhase.ready) 0 CallerPhase.needRefresh) 0
            (CallerPhase.finished (Except.ok ("tok", 2000)))⟩
        ⟨⟨"tok", 2000⟩, 0 + 1,
          Function.update
            (Function.update
              (Function.update (fun _ => CallerPhase.ready) 0 CallerPhase.needRefresh) 0
              (CallerPhase.finished (Except.ok ("tok", 2000)))) 1
            (CallerPhase.finished (Except.ok ("tok", 2000)))⟩ :=
      TokenStep.fastHit _ 1 (by simp [Function.update]) (by decide)
    exact Relation.ReflTransGen.tail
      (Relation.ReflTransGen.tail (Relation.ReflTransGen.single s1) s2) s3
  exact (c2_token_provider_single_exchange 2 1000 ⟨"", 0⟩ "tok" 2000 _
    (.ok ("tok", 2000))).1 (by decide) (by decide) (by decide) hreach
    (fun i => ⟨.ok ("tok", 2000), by fin_cases i <;> simp [Function.update]⟩)

end DonCrawler

namespace DonCrawler

/-! ## internal/githubapp/token.go — signed JWT assertion

`buildJWT`/`signJWT` embedding.  Go `json.Marshal` serializes maps with
keys in sorted order, so the header marshals exactly as
`{"alg":"RS256","typ":"JWT"}` and the claims as
`{"exp":…,"iat":…,"iss":…}`.  SHA-256 and RSA-PKCS1v15 are external
`crypto` collaborators: `sha256Hash` stands for `sha256.Sum256` and
`rsaSignPKCS1v15` for `rsa.SignPKCS1v15(rand.Reader, p.privateKey,
crypto.SHA256, ·)` with the provider's configured key. -/

/-- Go constant `jwtExpiry = 9 * time.Minute`, in seconds. -/
def jwtExpiry : Int := 540

/-- Go constant `jwtIssuedAtSkew = 30 * time.Second`, in seconds. -/
def jwtIssuedAtSkew : Int := 30

/-- The character of the base64url alphabet at index `n` (0–63). -/
def b64UrlChar (n : Nat) : Char :=
  if n < 26 then Char.ofNat ('A'.toNat + n)
  else if n < 52 then Char.ofNat ('a'.toNat + (n - 26))
  else if n < 62 then Char.ofNat ('0'.toNat + (n - 52))
  else if n = 62 then '-'
  else '_'

/-- Go `base64.RawURLEncoding.EncodeToString`: base64url without padding,
three bytes at a time. -/
def base64UrlNoPad : List Nat → List Char
  | [] => []
  | [b1] => [b64UrlChar (b1 / 4), b64UrlChar (b1 % 4 * 16)]
  | [b1, b2] =>
    [b64UrlChar (b1 / 4), b64UrlChar (b1 % 4 * 16 + b2 / 16), b64UrlChar (b2 % 16 * 4)]
  | b1 :: b2 :: b3 :: rest =>
    b64UrlChar (b1 / 4) :: b64UrlChar (b1 % 4 * 16 + b2 / 16) ::
      b64UrlChar (b2 % 16 * 4 + b3 / 64) :: b64UrlChar (b3 % 64) :: base64UrlNoPad rest

/-- Go `[]byte(s)`: the UTF-8 bytes of a string. -/
def stringBytes (s : String) : List Nat :=
  s.toUTF8.toList.map (fun b => b.toNat)

/-- The claims map built by `buildJWT`. -/
structure JWTClaims where
  iat : Int
  exp : Int
  iss : Int

/-- Go `json.Marshal` of the header map (keys sorted: alg, typ). -/
def jwtHeaderJSON : String := "\x7b\"alg\":\"RS256\",\"typ\":\"JWT\"\x7d"

/-- Go `json.Marshal` of the claims map (keys sorted: exp, iat, iss). -/
def jwtClaimsJSON (c : JWTClaims) : String :=
  "\x7b\"exp\":" ++ toString c.exp ++ ",\"iat\":" ++ toString c.iat ++
    ",\"iss\":" ++ toString c.iss ++ "\x7d"

/-- Go `encodeJWTPart`: marshal then base64url-encode. -/
def encodeJWTPart (json : String) : String :=
  String.mk (base64UrlNoPad (stringBytes json))

/-- Go `signJWT(claims, privateKey)`. -/
def signJWT (sha256Hash rsaSignPKCS1v15 : List Nat → List Nat) (claims : JWTClaims) :
    String :=
  let encodedHeader := encodeJWTPart jwtHeaderJSON
  let encodedPayload := encodeJWTPart (jwtClaimsJSON claims)
  let signingInput := encodedHeader ++ "." ++ encodedPayload
  let hash := sha256Hash (stringBytes signingInput)
  let signature := rsaSignPKCS1v15 hash
  signingInput ++ "." ++ String.mk (base64UrlNoPad signature)

/-- Go `TokenProvider.buildJWT(now)`: claims
`iat = (now − skew).Unix()`, `exp = (now + expiry).Unix()`, `iss = appID`. -/
def buildJWT (sha256Hash rsaSignPKCS1v15 : List Nat → List Nat) (appID : Int)
    (now : Int) : String :=
  signJWT sha256Hash rsaSignPKCS1v15
    ⟨timeUnixSec (now - jwtIssuedAtSkew), timeUnixSec (now + jwtExpiry), appID⟩

/-- Claim C8: every credential refresh signs an assertion whose header
JSON is `{"alg":"RS256","typ":"JWT"}`, whose claims JSON carries
`iat = now − 30s`, `exp = now + 9min` (Unix seconds) and `iss = appID`,
with header and payload base64url-encoded and joined as
`header.payload`, that string SHA-256-hashed and RSA-signed, and the
result concatenated as `header.payload.signature`. -/
theorem c8_jwt_assertion_structure (sha256Hash rsaSignPKCS1v15 : List Nat → List Nat)
    (appID now : Int) :
    buildJWT sha256Hash rsaSignPKCS1v15 appID now =
      String.mk (base64UrlNoPad (stringBytes "\x7b\"alg\":\"RS256\",\"typ\":\"JWT\"\x7d")) ++
        "." ++
        String.mk (base64UrlNoPad (stringBytes
          ("\x7b\"exp\":" ++ toString (timeUnixSec now + 540) ++
            ",\"iat\":" ++ toString (timeUnixSec now - 30) ++
            ",\"iss\":" ++ toString appID ++ "\x7d"))) ++
        "." ++
        String.mk (base64UrlNoPad (rsaSignPKCS1v15 (sha256Hash (stringBytes
          (String.mk (base64UrlNoPad (stringBytes "\x7b\"alg\":\"RS256\",\"typ\":\"JWT\"\x7d")) ++
            "." ++
            String.mk (base64UrlNoPad (stringBytes
              ("\x7b\"exp\":" ++ toString (timeUnixSec now + 540) ++
                ",\"iat\":" ++ toString (timeUnixSec now - 30) ++
                ",\"iss\":" ++ toString appID ++ "\x7d")))))))) := by
  have hiat : timeUnixSec (now - jwtIssuedAtSkew) = timeUnixSec now - 30 := by
    simp only [timeUnixSec, jwtIssuedAtSkew]
    omega
  have hexp : timeUnixSec (now + jwtExpiry) = timeUnixSec now + 540 := by
    simp only [timeUnixSec, jwtExpiry]
    omega
  simp only [buildJWT, signJWT, encodeJWTPart, jwtClaimsJSON, jwtHeaderJSON, hiat, hexp]

end DonCrawler

namespace DonCrawler

/-! ## crawler — per-repository processing

Embedding of the most recent crawler snapshot (the one with the
`repoLocks` field): `ProcessRepo` with `dryRun = false`,
`ensurePubliccodeFile`, `cloneAndLogActivity`'s returned error,
`lastActivityFromAPI`, `lastActivityFromGit`, the README/title backfill,
`repositoryPubliccodeURL`, `repoPostDetails`, `ensureDescription` and
`descriptionFromReadme`.  Network, git-subprocess and parser results are
oracles collected in `ProcessEnv`; log entries are not modelled. -/

/-- A `common.Publisher` (the fields `ProcessRepo` reads). -/
structure Publisher where
  ID : String
  Name : String
  Organization : String
  OrganisationURL : String
deriving DecidableEq

/-- A `common.Repository` (URL values as the strings `ProcessRepo`
consumes: `URL.Host` and `CanonicalURL.String()`). -/
structure Repository where
  Name : String
  Title : String
  Description : String
  FileRawURL : String
  URLHost : String
  CanonicalURL : String
  GitBranch : String
  CreatedAt : Int
  UpdatedAt : Int
  Publisher : Publisher
deriving DecidableEq

/-- Go `orgURI(publisher)`. -/
def orgURI (p : Publisher) : String :=
  if p.OrganisationURL ≠ "" then p.OrganisationURL else p.Organization

/-- Go `ensureDescription(repository)`: first non-empty of Description,
Title, Name, then the fixed fallback text. -/
def ensureDescription (r : Repository) : String :=
  if r.Description ≠ "" then r.Description
  else if r.Title ≠ "" then r.Title
  else if r.Name ≠ "" then r.Name
  else "No description provided"

/-- Go `repositoryPubliccodeURL(repository)`: `nil` when the metadata
file URL is empty. -/
def repositoryPubliccodeURL (r : Repository) : Option String :=
  if r.FileRawURL = "" then none else some r.FileRawURL

/-- Go `repoPostDetails(repository)`: the title pointer (Name as
fallback, `nil` when both empty) and the description pointer (always
set, to `ensureDescription`). -/
def repoPostDetails (r : Repository) : Option String × Option String :=
  let title := if r.Title = "" then r.Name else r.Title
  let desc := ensureDescription r
  ((if title = "" then none else some title), some desc)

/-- Go `strings.HasPrefix`. -/
def hasStringPrefix (s pre : String) : Bool :=
  pre.toList.isPrefixOf s.toList

/-- Go `strings.ToLower` (ASCII). -/
def strToLower (s : String) : String :=
  String.mk (s.toList.map Char.toLower)

/-- Go `isReadmeSkippableLine(line)`: headings, HTML img/anchor lines,
image/badge markdown lines. -/
def isReadmeSkippableLine (line : String) : Bool :=
  let lower := strToLower line
  if hasStringPrefix line "#" then true
  else if hasStringPrefix lower "<img" || hasStringPrefix lower "<a" then true
  else if hasStringPrefix line "![" || hasStringPrefix line "[!" then true
  else false

/-- Go `strings.ReplaceAll(contents, "\r\n", "\n")`. -/
def stripCRLF : List Char → List Char
  | [] => []
  | '\r' :: '\n' :: rest => '\n' :: stripCRLF rest
  | c :: rest => c :: stripCRLF rest

/-- In-place update `paragraph[i] = v` of a Go slice. -/
def listSet : List String → Nat → String → List String
  | [], _, _ => []
  | _ :: xs, 0, v => v :: xs
  | x :: xs, n + 1, v => x :: listSet xs n v

/-- Go `strings.Join(elems, " ")`. -/
def joinWithSpace : List String → String
  | [] => ""
  | [x] => x
  | x :: xs => x ++ " " ++ joinWithSpace xs

/-- The `for i, line := range lines` loop of `descriptionFromReadme`:
`paragraph` starts as `make([]string, len(lines))` (all slots empty, so
`len(paragraph)` equals `len(lines)` throughout), the first blank line
hits the `len(paragraph) > 0` break, the `len(paragraph) == 0` skip
branch never fires, and non-blank lines are written at their index. -/
def descriptionLoop : List String → Nat → List String → List String
  | [], _, paragraph => paragraph
  | line :: rest, i, paragraph =>
    let trimmed := trimSpace line
    if trimmed = "" then
      if paragraph.length > 0 then paragraph
      else descriptionLoop rest (i + 1) paragraph
    else if paragraph.length = 0 && isReadmeSkippableLine trimmed then
      descriptionLoop rest (i + 1) paragraph
    else descriptionLoop rest (i + 1) (listSet paragraph i trimmed)

/-- Go `descriptionFromReadme(contents)`. -/
def descriptionFromReadme (contents : String) : String :=
  let normalized := String.mk (stripCRLF contents.toList)
  let lines := goSplit '\n' normalized
  let paragraph := List.replicate lines.length ""
  joinWithSpace (descriptionLoop lines 0 paragraph)

/-- Go `path.Base` (for the repository names fed to it). -/
def pathBase (s : String) : String :=
  if s = "" then "."
  else
    let cs := (s.toList.reverse.dropWhile (fun c => c = '/')).reverse
    if cs = [] then "/"
    else String.mk ((splitOnCharAux '/' cs []).getLastD [])

/-- Go `titleFromRepositoryName(repository)`. -/
def titleFromRepositoryName (r : Repository) : String :=
  if r.Name = "" then "" else pathBase r.Name

/-- The oracle results consumed while processing one repository:
the `httpclient.GetURL` status for the metadata file URL, the error
`cloneAndLogActivity` returns (`git.CalculateRepoActivity`'s — the
`activityIndex, _, err :=` line reassigns `err`, so `git.CloneRepository`'s
own error is only logged), `git.ReadReadme`, `git.LastCommitTime` and the
scanner's `LastCommitTimeFromAPI` dispatched on the canonical URL's
host. -/
structure ProcessEnv where
  fetchPubliccode : Except GoError Int
  activityErr : Option GoError
  readme : Except GoError String
  gitLastCommit : Except GoError Int
  apiLastCommit : Except GoError Int

/-- Go `ensurePubliccodeFile`: an empty URL is left alone; a reachable
URL (status 200, no transport error) is kept; anything else clears the
URL. -/
def ensurePubliccodeFile (fetch : Except GoError Int) (r : Repository) : Repository :=
  if r.FileRawURL = "" then r
  else
    let statusCode := match fetch with | .ok s => s | .error _ => 0
    if statusCode = 200 ∧ fetch.isOk then r
    else { r with FileRawURL := "" }

/-- The error value `cloneAndLogActivity` returns for a given clone URL. -/
def cloneAndLogActivityErr (env : ProcessEnv) (cloneURL : String) : Option GoError :=
  if cloneURL = "" then some (.message "clone URL empty")
  else env.activityErr

/-- Go `lastActivityFromAPI(repository)`: the API commit time when the
call succeeded with a non-zero instant, else the listed update time with
`false`. -/
def lastActivityFromAPI (env : ProcessEnv) (r : Repository) : Int × Bool :=
  match env.apiLastCommit with
  | .ok t => if t ≠ 0 then (t, true) else (r.UpdatedAt, false)
  | .error _ => (r.UpdatedAt, false)

/-- Go `lastActivityFromGit(repository, cloneErr)`: local git history
first; on failure, the API — but only when `cloneErr` is non-nil; else
the listed update time. -/
def lastActivityFromGit (env : ProcessEnv) (r : Repository) (cloneErr : Option GoError) :
    Int :=
  match env.gitLastCommit with
  | .ok t => t
  | .error _ =>
    match cloneErr with
    | some _ =>
      let al := lastActivityFromAPI env r
      if al.2 then al.1 else r.UpdatedAt
    | none => r.UpdatedAt

/-- The `!hasPubliccode` backfill branch of `ProcessRepo`: README-derived
description (only when the description is empty and the clone/activity
step succeeded), then title from the repository name. -/
def backfillRepo (env : ProcessEnv) (cloneErr : Option GoError) (r : Repository) :
    Repository :=
  let rd :=
    if r.Description = "" ∧ cloneErr = none then
      match env.readme with
      | .ok contents => { r with Description := descriptionFromReadme contents }
      | .error _ => r
    else r
  if rd.Title = "" then { rd with Title := titleFromRepositoryName rd } else rd

/-- The record handed to `apiClient.PostRepository`. -/
structure PostRecord where
  repositoryUrl : String
  title : Option String
  description : Option String
  publiccodeYmlUrl : Option String
  organisationUri : String
  createdAt : Int
  lastActivityAt : Int
deriving DecidableEq

/-- Go `ProcessRepo(repository)` with `dryRun = false`: ensure the
metadata file is reachable, clone and compute activity, backfill
title/description when the file is absent, and post the record (with
`nil` title/description when a metadata file is present). -/
def processRepoPost (env : ProcessEnv) (r0 : Repository) : PostRecord :=
  let r1 := ensurePubliccodeFile env.fetchPubliccode r0
  let hasPubliccode := r1.FileRawURL ≠ ""
  let cloneURL := r1.CanonicalURL
  let cloneErr := cloneAndLogActivityErr env cloneURL
  let r2 := if hasPubliccode then r1 else backfillRepo env cloneErr r1
  let publiccodeURL := repositoryPubliccodeURL r2
  let td := if hasPubliccode then ((none : Option String), (none : Option String))
    else repoPostDetails r2
  { repositoryUrl := r2.CanonicalURL
    title := td.1
    description := td.2
    publiccodeYmlUrl := publiccodeURL
    organisationUri := orgURI r2.Publisher
    createdAt := r2.CreatedAt
    lastActivityAt := lastActivityFromGit env r2 cloneErr }

end DonCrawler

namespace DonCrawler

/-- The ORIGINAL claim C6 reading of last-activity selection: prefer the
provider API's commit time (when it succeeds with a non-zero instant),
fall back to local git history, then to the listed update time. -/
def specLastActivityAPIFirst (env : ProcessEnv) (r : Repository) : Int :=
  match env.apiLastCommit with
  | .ok t =>
    if t ≠ 0 then t
    else match env.gitLastCommit with
      | .ok g => g
      | .error _ => r.UpdatedAt
  | .error _ =>
    match env.gitLastCommit with
    | .ok g => g
    | .error _ => r.UpdatedAt

/-- The AMENDED claim C6 reading: prefer local git history; when git
history fails, consult the provider API only if the clone/activity step
reported an error (taking the API time when it succeeds with a non-zero
instant); otherwise use the listed update time. -/
def amendedLastActivity (env : ProcessEnv) (r : Repository) (cloneErr : Option GoError) :
    Int :=
  match env.gitLastCommit with
  | .ok g => g
  | .error _ =>
    match cloneErr with
    | some _ =>
      match env.apiLastCommit with
      | .ok t => if t ≠ 0 then t else r.UpdatedAt
      | .error _ => r.UpdatedAt
    | none => r.UpdatedAt

theorem backfillRepo_preserves (env : ProcessEnv) (cloneErr : Option GoError)
    (r : Repository) :
    (backfillRepo env cloneErr r).FileRawURL = r.FileRawURL ∧
    (backfillRepo env cloneErr r).CanonicalURL = r.CanonicalURL ∧
    (backfillRepo env cloneErr r).UpdatedAt = r.UpdatedAt ∧
    (backfillRepo env cloneErr r).CreatedAt = r.CreatedAt ∧
    (backfillRepo env cloneErr r).Publisher = r.Publisher := by
  refine ⟨?_, ?_, ?_, ?_, ?_⟩ <;>
    · unfold backfillRepo
      by_cases h1 : r.Description = "" ∧ cloneErr = none
      · simp only [if_pos h1]
        cases env.readme with
        | ok contents => by_cases h2 : r.Title = "" <;> simp [h2]
        | error e => by_cases h2 : r.Title = "" <;> simp [h2]
      · simp only [if_neg h1]
        by_cases h2 : r.Title = "" <;> simp [h2]

theorem ensurePubliccodeFile_preserves (fetch : Except GoError Int) (r : Repository) :
    (ensurePubliccodeFile fetch r).CanonicalURL = r.CanonicalURL ∧
    (ensurePubliccodeFile fetch r).UpdatedAt = r.UpdatedAt ∧
    (ensurePubliccodeFile fetch r).CreatedAt = r.CreatedAt ∧
    (ensurePubliccodeFile fetch r).Publisher = r.Publisher := by
  refine ⟨?_, ?_, ?_, ?_⟩ <;>
    · unfold ensurePubliccodeFile
      by_cases h1 : r.FileRawURL = ""
      · simp [h1]
      · simp only [if_neg h1]
        split <;> simp

theorem lastActivityFromGit_eq_amended (env : ProcessEnv) (r : Repository)
    (cloneErr : Option GoError) :
    lastActivityFromGit env r cloneErr = amendedLastActivity env r cloneErr := by
  unfold lastActivityFromGit amendedLastActivity lastActivityFromAPI
  cases env.gitLastCommit with
  | ok g => rfl
  | error e =>
    cases cloneErr with
    | none => rfl
    | some ce =>
      cases env.apiLastCommit with
      | ok t =>
        by_cases ht : t ≠ 0
        · simp [ht]
        · simp [ht]
      | error e2 => rfl

theorem amendedLastActivity_congr (env : ProcessEnv) (cloneErr : Option GoError)
    (r r' : Repository) (h : r.UpdatedAt = r'.UpdatedAt) :
    amendedLastActivity env r cloneErr = amendedLastActivity env r' cloneErr := by
  unfold amendedLastActivity
  cases env.gitLastCommit with
  | ok g => rfl
  | error e =>
    cases cloneErr with
    | none => exact h
    | some ce =>
      cases env.apiLastCommit with
      | ok t =>
        by_cases ht : t ≠ 0
        · simp [ht]
        · simp [ht, h]
      | error e2 => exact h

/-- Claim C6 (amended): for every processed repository the submitted
last-activity timestamp prefers the LOCAL GIT history's last commit
time; when git history fails it falls back to the provider API's commit
time only if the clone-and-activity step reported an error; otherwise
the repository's listed update timestamp is used.  (The original claim
had the API preferred and git as the fallback; see the
counterexample.) -/
theorem c6_last_activity_prefers_git (env : ProcessEnv) (r : Repository) :
    (∀ cloneErr, lastActivityFromGit env r cloneErr = amendedLastActivity env r cloneErr) ∧
    (processRepoPost env r).lastActivityAt =
      amendedLastActivity env r
        (cloneAndLogActivityErr env (ensurePubliccodeFile env.fetchPubliccode r).CanonicalURL) := by
  constructor
  · intro cloneErr
    exact lastActivityFromGit_eq_amended env r cloneErr
  · simp only [processRepoPost]
    set r1 := ensurePubliccodeFile env.fetchPubliccode r with hr1
    set ce := cloneAndLogActivityErr env r1.CanonicalURL with hce
    by_cases hp : r1.FileRawURL ≠ ""
    · rw [if_pos hp]
      rw [lastActivityFromGit_eq_amended]
      exact amendedLastActivity_congr env ce r1 r
        (ensurePubliccodeFile_preserves env.fetchPubliccode r).2.1
    · rw [if_neg hp]
      rw [lastActivityFromGit_eq_amended]
      refine amendedLastActivity_congr env ce _ r ?_
      rw [(backfillRepo_preserves env ce r1).2.2.1]
      exact (ensurePubliccodeFile_preserves env.fetchPubliccode r).2.1

/-- Counterexample to C6 as stated: a repository whose API commit lookup
succeeds with instant 100 and whose local git history reports instant
200 (clone and activity succeeding).  The posted last activity is the
git time 200, not the API time 100 the claim requires. -/
theorem c6_counterexample_api_not_preferred :
    (processRepoPost
        ⟨.ok 200, none, .error (.message "no readme"), .ok 200, .ok 100⟩
        ⟨"org/repo", "t", "d", "", "github.com", "https://github.com/org/repo.git",
          "main", 10, 50, ⟨"id", "pub", "https://github.com/org", ""⟩⟩).lastActivityAt =
      200 ∧
    specLastActivityAPIFirst
        ⟨.ok 200, none, .error (.message "no readme"), .ok 200, .ok 100⟩
        ⟨"org/repo", "t", "d", "", "github.com", "https://github.com/org/repo.git",
          "main", 10, 50, ⟨"id", "pub", "https://github.com/org", ""⟩⟩ = 100 ∧
    ((200 : Int) ≠ 100) :=
  ⟨by decide, by decide, by decide⟩

end DonCrawler

namespace DonCrawler

/-- Claim C7: a repository listed with a metadata-file URL whose fetch
does not come back 200 is processed exactly like a repository listed
without one: the URL is cleared, the posted record equals the
absent-file record, its `publiccodeYmlUrl` is null, and its title and
description are the backfilled ones. -/
theorem c7_stale_publiccode_treated_as_absent (env : ProcessEnv) (r : Repository)
    (hurl : r.FileRawURL ≠ "") (hfetch : env.fetchPubliccode ≠ .ok 200) :
    (ensurePubliccodeFile env.fetchPubliccode r).FileRawURL = "" ∧
    processRepoPost env r = processRepoPost env { r with FileRawURL := "" } ∧
    (processRepoPost env r).publiccodeYmlUrl = none ∧
    (processRepoPost env r).title =
      (repoPostDetails (backfillRepo env (cloneAndLogActivityErr env r.CanonicalURL)
        { r with FileRawURL := "" })).1 ∧
    (processRepoPost env r).description =
      (repoPostDetails (backfillRepo env (cloneAndLogActivityErr env r.CanonicalURL)
        { r with FileRawURL := "" })).2 := by
  have hensure : ensurePubliccodeFile env.fetchPubliccode r = { r with FileRawURL := "" } := by
    unfold ensurePubliccodeFile
    rw [if_neg hurl]
    have hcond : ¬((match env.fetchPubliccode with | .ok s => s | .error _ => 0) = 200 ∧
        env.fetchPubliccode.isOk) := by
      cases hf : env.fetchPubliccode with
      | ok s =>
        intro hc
        have hs : s = 200 := by simpa using hc.1
        exact hfetch (by rw [hf, hs])
      | error e => simp [Except.isOk, Except.toBool]
    rw [if_neg hcond]
  have hensure2 : ensurePubliccodeFile env.fetchPubliccode { r with FileRawURL := "" } =
      { r with FileRawURL := "" } := by
    unfold ensurePubliccodeFile
    simp
  have hmain : processRepoPost env r = processRepoPost env { r with FileRawURL := "" } := by
    unfold processRepoPost
    rw [hensure, hensure2]
  have hclear : ({ r with FileRawURL := "" } : Repository).FileRawURL = "" := rfl
  have habs : processRepoPost env { r with FileRawURL := "" } =
      { repositoryUrl := (backfillRepo env
          (cloneAndLogActivityErr env r.CanonicalURL) { r with FileRawURL := "" }).CanonicalURL
        title := (repoPostDetails (backfillRepo env
          (cloneAndLogActivityErr env r.CanonicalURL) { r with FileRawURL := "" })).1
        description := (repoPostDetails (backfillRepo env
          (cloneAndLogActivityErr env r.CanonicalURL) { r with FileRawURL := "" })).2
        publiccodeYmlUrl := repositoryPubliccodeURL (backfillRepo env
          (cloneAndLogActivityErr env r.CanonicalURL) { r with FileRawURL := "" })
        organisationUri := orgURI (backfillRepo env
          (cloneAndLogActivityErr env r.CanonicalURL) { r with FileRawURL := "" }).Publisher
        createdAt := (backfillRepo env
          (cloneAndLogActivityErr env r.CanonicalURL) { r with FileRawURL := "" }).CreatedAt
        lastActivityAt := lastActivityFromGit env (backfillRepo env
          (cloneAndLogActivityErr env r.CanonicalURL) { r with FileRawURL := "" })
          (cloneAndLogActivityErr env r.CanonicalURL) } := by
    unfold processRepoPost
    rw [hensure2]
    simp only [hclear, ne_eq, not_true_eq_false, if_false, reduceIte]
  have hpc : repositoryPubliccodeURL (backfillRepo env
      (cloneAndLogActivityErr env r.CanonicalURL) { r with FileRawURL := "" }) = none := by
    unfold repositoryPubliccodeURL
    rw [(backfillRepo_preserves env (cloneAndLogActivityErr env r.CanonicalURL)
      { r with FileRawURL := "" }).1]
    simp
  refine ⟨by rw [hensure], hmain, ?_, ?_, ?_⟩
  · rw [hmain, habs, hpc]
  · rw [hmain, habs]
  · rw [hmain, habs]

/-- Witness for C7: a repository listed with a metadata-file URL that
comes back 404 posts a record with a null `publiccodeYmlUrl`, identical
to the record of the same repository listed without the file. -/
theorem c7_stale_publiccode_treated_as_absent_witness :
    (ensurePubliccodeFile (Except.ok 404)
      ⟨"org/repo", "", "", "https://example.org/publiccode.yml", "github.com",
        "https://github.com/org/repo.git", "main", 10, 50,
        ⟨"id", "pub", "https://github.com/org", ""⟩⟩).FileRawURL = "" ∧
    processRepoPost ⟨.ok 404, none, .error (.message "no readme"), .ok 200, .ok 100⟩
        ⟨"org/repo", "", "", "https://example.org/publiccode.yml", "github.com",
          "https://github.com/org/repo.git", "main", 10, 50,
          ⟨"id", "pub", "https://github.com/org", ""⟩⟩ =
      processRepoPost ⟨.ok 404, none, .error (.message "no readme"), .ok 200, .ok 100⟩
        { (⟨"org/repo", "", "", "https://example.org/publiccode.yml", "github.com",
          "https://github.com/org/repo.git", "main", 10, 50,
          ⟨"id", "pub", "https://github.com/org", ""⟩⟩ : Repository) with FileRawURL := "" } ∧
    (processRepoPost ⟨.ok 404, none, .error (.message "no readme"), .ok 200, .ok 100⟩
        ⟨"org/repo", "", "", "https://example.org/publiccode.yml", "github.com",
          "https://github.com/org/repo.git", "main", 10, 50,
          ⟨"id", "pub", "https://github.com/org", ""⟩⟩).publiccodeYmlUrl = none := by
  have h := c7_stale_publiccode_treated_as_absent
    ⟨.ok 404, none, .error (.message "no readme"), .ok 200, .ok 100⟩
    ⟨"org/repo", "", "", "https://example.org/publiccode.yml", "github.com",
      "https://github.com/org/repo.git", "main", 10, 50,
      ⟨"id", "pub", "https://github.com/org", ""⟩⟩
    (by decide) (by simp)
  exact ⟨h.1, h.2.1, h.2.2.1⟩

/-- Claim C9, evaluated on the code: `descriptionFromReadme` keeps a
leading markdown heading (the skip logic is dead: `paragraph` is
allocated with `make([]string, len(lines))`, so `len(paragraph)` is
never 0) and pads the result with one space per line slot after the
first blank line, while `isReadmeSkippableLine` itself does classify the
heading as skippable. -/
theorem c9_readme_description_keeps_heading :
    descriptionFromReadme "# Title\nHello world" = "# Title Hello world" ∧
    descriptionFromReadme "Hello\nworld\n\nmore" = "Hello world  " ∧
    isReadmeSkippableLine "# Title" = true :=
  ⟨by decide, by decide, by decide⟩

theorem ensureDescription_ne_empty (r : Repository) : ensureDescription r ≠ "" := by
  unfold ensureDescription
  split
  next h => exact h
  next h =>
    split
    next h2 => exact h2
    next h2 =>
      split
      next h3 => exact h3
      next h3 => decide

/-- Claim C10: `ensureDescription` returns the first non-empty of
Description, Title and Name, and the literal fallback when all three are
empty; it never returns the empty string; and the description posted for
a repository whose processed metadata-file URL is empty is always a
non-null pointer to a non-empty string. -/
theorem c10_description_never_empty (env : ProcessEnv) (r : Repository) :
    (r.Description ≠ "" → ensureDescription r = r.Description) ∧
    (r.Description = "" → r.Title ≠ "" → ensureDescription r = r.Title) ∧
    (r.Description = "" → r.Title = "" → r.Name ≠ "" → ensureDescription r = r.Name) ∧
    (r.Description = "" → r.Title = "" → r.Name = "" →
      ensureDescription r = "No description provided") ∧
    ensureDescription r ≠ "" ∧
    ((ensurePubliccodeFile env.fetchPubliccode r).FileRawURL = "" →
      ∃ d, (processRepoPost env r).description = some d ∧ d ≠ "") := by
  refine ⟨?_, ?_, ?_, ?_, ?_, ?_⟩
  · intro h
    simp [ensureDescription, h]
  · intro h1 h2
    simp [ensureDescription, h1, h2]
  · intro h1 h2 h3
    simp [ensureDescription, h1, h2, h3]
  · intro h1 h2 h3
    simp [ensureDescription, h1, h2, h3]
  · exact ensureDescription_ne_empty r
  · intro habs
    refine ⟨ensureDescription (backfillRepo env
      (cloneAndLogActivityErr env (ensurePubliccodeFile env.fetchPubliccode r).CanonicalURL)
      (ensurePubliccodeFile env.fetchPubliccode r)), ?_, ensureDescription_ne_empty _⟩
    simp [processRepoPost, habs, repoPostDetails]

end DonCrawler

namespace DonCrawler

/-- Witness for C10: a repository with empty description, title and name
gets the literal fallback text, and a repository without a metadata file
is posted with a non-null, non-empty description. -/
theorem c10_description_never_empty_witness :
    ensureDescription ⟨"", "", "", "", "", "", "", 0, 0, ⟨"", "", "", ""⟩⟩ =
      "No description provided" ∧
    ∃ d, (processRepoPost ⟨.ok 200, none, .error (.message "e"), .ok 1, .ok 1⟩
        ⟨"org/repo", "", "", "", "github.com", "https://github.com/org/repo.git", "main",
          0, 0, ⟨"id", "pub", "https://github.com/org", ""⟩⟩).description = some d ∧
      d ≠ "" :=
  ⟨(c10_description_never_empty ⟨.ok 200, none, .error (.message "e"), .ok 1, .ok 1⟩
      ⟨"", "", "", "", "", "", "", 0, 0, ⟨"", "", "", ""⟩⟩).2.2.2.1 rfl rfl rfl,
    (c10_description_never_empty ⟨.ok 200, none, .error (.message "e"), .ok 1, .ok 1⟩
      ⟨"org/repo", "", "", "", "github.com", "https://github.com/org/repo.git", "main",
        0, 0, ⟨"id", "pub", "https://github.com/org", ""⟩⟩).2.2.2.2.2 (by decide)⟩

end DonCrawler

namespace DonCrawler

/-! ## crawler — per-repository lock around clone/fetch

Embedding of `repoLockKey`, `repoLockMap.lock` and the locking shape of
`cloneAndLogActivity`.  `repoLockMap.lock` guards its registry with the
map-level mutex and lazily creates at most one `sync.Mutex` per key, so
every caller with the same key blocks on the same mutex; mutexes are
therefore identified with their key strings.  A worker's lock-relevant
behaviour is the event sequence `cloneAndLogActivitySteps`: acquire the
key's mutex, perform the filesystem-mutating `git.CloneRepository` call
(split into two mutation events so that interleaving is expressible; the
sequence is the same whether the clone succeeds or fails, since
`unlock()` is unconditionally the next statement), release, then the
activity computation outside the lock.  A concurrent execution of two
workers is any merge of their sequences that respects mutex semantics
(`lockValid`): acquiring blocks while another thread holds the key,
releasing requires holding it. -/

/-- Go `repoLockKey(repository)`: the URL host plus the first two path
segments of the repository full name. -/
def repoLockKey (r : Repository) : String :=
  if r.Name = "" then r.URLHost
  else
    let parts := goSplit '/' r.Name
    if parts.length < 2 then r.URLHost ++ "/" ++ r.Name
    else r.URLHost ++ "/" ++ parts.getD 0 "" ++ "/" ++ parts.getD 1 ""

/-- Events of one worker's clone/fetch step, as seen by the lock. -/
inductive LockEvent where
  | acquire (key : String)
  | mutate (key : String) (phase : Nat)
  | release (key : String)
  | work
deriving DecidableEq

/-- The suffix of the worker's event sequence from stage `s` on
(stage 0 = not started, 1–3 = holding the lock, 4 = after release,
5 = done). -/
def stageSuffix (k : String) : Nat → List LockEvent
  | 0 => [.acquire k, .mutate k 0, .mutate k 1, .release k, .work]
  | 1 => [.mutate k 0, .mutate k 1, .release k, .work]
  | 2 => [.mutate k 1, .release k, .work]
  | 3 => [.release k, .work]
  | 4 => [.work]
  | _ => []

/-- The lock-relevant event sequence of `cloneAndLogActivity` for lock
key `k`. -/
def cloneAndLogActivitySteps (k : String) : List LockEvent := stageSuffix k 0

/-- How many mutation events remain from stage `s` on. -/
def remMut : Nat → Nat
  | 0 => 2
  | 1 => 2
  | 2 => 1
  | _ => 0

/-- Whether a worker at stage `s` holds its lock. -/
def insideCS : Nat → Bool
  | 1 => true
  | 2 => true
  | 3 => true
  | _ => false

/-- Whether `tr` is an interleaving of thread 0's events `p` and thread
1's events `q` (each event tagged with its thread, `false` = thread 0). -/
def isMerge : List LockEvent → List LockEvent → List (Bool × LockEvent) → Bool
  | p, q, [] => p.isEmpty && q.isEmpty
  | p, q, (t, e) :: tr =>
    if t then
      match q with
      | [] => false
      | e' :: q' => e' == e && isMerge p q' tr
    else
      match p with
      | [] => false
      | e' :: p' => e' == e && isMerge p' q tr

/-- The thread holding key `k` in the holder map, if any. -/
def holderLookup (k : String) : List (String × Bool) → Option Bool
  | [] => none
  | (k2, t) :: rest => if k2 == k then some t else holderLookup k rest

/-- Remove the first binding of key `k` from the holder map. -/
def holderErase (k : String) : List (String × Bool) → List (String × Bool)
  | [] => []
  | (k2, t) :: rest => if k2 == k then rest else (k2, t) :: holderErase k rest

/-- Whether `tr` respects mutex semantics, starting from the holder map
`held` (an association from key to the thread holding it). -/
def lockValid : List (String × Bool) → List (Bool × LockEvent) → Bool
  | _, [] => true
  | held, (t, .acquire k) :: tr => (holderLookup k held).isNone && lockValid ((k, t) :: held) tr
  | held, (t, .release k) :: tr =>
    (holderLookup k held == some t) && lockValid (holderErase k held) tr
  | held, (_, .mutate _ _) :: tr => lockValid held tr
  | held, (_, .work) :: tr => lockValid held tr

/-- The thread tags of the mutation events of a trace, in order. -/
def mutThreads (tr : List (Bool × LockEvent)) : List Bool :=
  tr.filterMap fun te =>
    match te.2 with
    | .mutate _ _ => some te.1
    | _ => none

/-- The shape the remaining mutation tags can take from stages `(i, j)`:
while a thread is in its critical section its remaining mutations come
first in one block; otherwise either thread's block may come first —
never interleaved. -/
def mutPattern (i j : Nat) (l : List Bool) : Prop :=
  if insideCS i then
    l = List.replicate (remMut i) false ++ List.replicate (remMut j) true
  else if insideCS j then
    l = List.replicate (remMut j) true ++ List.replicate (remMut i) false
  else
    l = List.replicate (remMut i) false ++ List.replicate (remMut j) true ∨
      l = List.replicate (remMut j) true ++ List.replicate (remMut i) false

/-- The holder-map invariant at stages `(i, j)`: key `k` is held by
whichever thread is inside its critical section, it is bound at most
once, and the two threads are never inside simultaneously. -/
def heldInv (k : String) (i j : Nat) (held : List (String × Bool)) : Prop :=
  holderLookup k held =
    (if insideCS i then some false else if insideCS j then some true else none) ∧
  holderLookup k (holderErase k held) = none ∧
  ¬(insideCS i = true ∧ insideCS j = true)

end DonCrawler

namespace DonCrawler

theorem holderLookup_cons_self (k : String) (t : Bool) (held : List (String × Bool)) :
    holderLookup k ((k, t) :: held) = some t := by
  simp [holderLookup]

theorem holderErase_cons_self (k : String) (t : Bool) (held : List (String × Bool)) :
    holderErase k ((k, t) :: held) = held := by
  simp [holderErase]

theorem holderErase_of_lookup_none (k : String) (held : List (String × Bool))
    (h : holderLookup k held = none) : holderErase k held = held := by
  induction held with
  | nil => rfl
  | cons c tl ih =>
    obtain ⟨k2, t⟩ := c
    by_cases hc : k2 == k
    · rw [holderLookup] at h
      simp [hc] at h
    · rw [holderLookup] at h
      simp only [hc, if_false, Bool.false_eq_true] at h
      rw [holderErase]
      simp only [hc, if_false, Bool.false_eq_true]
      rw [ih h]

theorem stageSuffix_empty (k : String) (i : Nat) (h : stageSuffix k i = []) :
    insideCS i = false ∧ remMut i = 0 := by
  rcases i with _ | _ | _ | _ | _ | n
  · simp [stageSuffix] at h
  · simp [stageSuffix] at h
  · simp [stageSuffix] at h
  · simp [stageSuffix] at h
  · simp [stageSuffix] at h
  · exact ⟨rfl, rfl⟩

theorem insideCS_0 : insideCS 0 = false := rfl

theorem insideCS_1 : insideCS 1 = true := rfl

theorem insideCS_2 : insideCS 2 = true := rfl

theorem insideCS_3 : insideCS 3 = true := rfl

theorem insideCS_4 : insideCS 4 = false := rfl

theorem insideCS_5 : insideCS 5 = false := rfl

theorem remMut_0 : remMut 0 = 2 := rfl

theorem remMut_1 : remMut 1 = 2 := rfl

theorem remMut_2 : remMut 2 = 1 := rfl

theorem remMut_3 : remMut 3 = 0 := rfl

theorem remMut_4 : remMut 4 = 0 := rfl

theorem remMut_5 : remMut 5 = 0 := rfl

theorem mutThreads_cons_acquire (t : Bool) (k : String) (tr : List (Bool × LockEvent)) :
    mutThreads ((t, .acquire k) :: tr) = mutThreads tr := rfl

theorem mutThreads_cons_mutate (t : Bool) (k : String) (p : Nat)
    (tr : List (Bool × LockEvent)) :
    mutThreads ((t, .mutate k p) :: tr) = t :: mutThreads tr := rfl

theorem mutThreads_cons_release (t : Bool) (k : String) (tr : List (Bool × LockEvent)) :
    mutThreads ((t, .release k) :: tr) = mutThreads tr := rfl

theorem mutThreads_cons_work (t : Bool) (tr : List (Bool × LockEvent)) :
    mutThreads ((t, .work) :: tr) = mutThreads tr := rfl

theorem lockValid_merge_mutPattern (k : String) :
    ∀ (tr : List (Bool × LockEvent)) (i j : Nat) (held : List (String × Bool)),
      isMerge (stageSuffix k i) (stageSuffix k j) tr = true →
      lockValid held tr = true →
      heldInv k i j held →
      mutPattern i j (mutThreads tr) := by
  intro tr
  induction tr with
  | nil =>
    intro i j held hm _ _
    rw [isMerge.eq_def] at hm
    simp only [Bool.and_eq_true, List.isEmpty_iff] at hm
    obtain ⟨hpi, hpj⟩ := stageSuffix_empty k i hm.1
    obtain ⟨hqi, hqj⟩ := stageSuffix_empty k j hm.2
    simp [mutPattern, hpi, hqi, hpj, hqj, mutThreads]
  | cons te tr ih =>
    intro i j held hm hv hinv
    obtain ⟨t, e⟩ := te
    obtain ⟨hinv1, hinv2, hinv3⟩ := hinv
    cases t with
    | false =>
      rcases i with _ | _ | _ | _ | _ | n
      · -- stage 0: acquire
        rw [isMerge.eq_def] at hm
        simp only [if_false, Bool.false_eq_true, stageSuffix, Bool.and_eq_true,
          beq_iff_eq] at hm
        obtain ⟨rfl, hm'⟩ := hm
        rw [lockValid] at hv
        simp only [Bool.and_eq_true] at hv
        obtain ⟨hv1, hv2⟩ := hv
        cases hj : insideCS j with
        | true =>
          rw [insideCS_0, hj] at hinv1
          simp only [Bool.false_eq_true, if_false, if_true] at hinv1
          rw [hinv1] at hv1
          simp [Option.isNone] at hv1
        | false =>
          have hnone : holderLookup k held = none := Option.isNone_iff_eq_none.mp hv1
          have hih := ih 1 j ((k, false) :: held) (by simpa [stageSuffix] using hm') hv2
            ⟨by rw [holderLookup_cons_self, insideCS_1]; simp,
              by rw [holderErase_cons_self]; exact hnone,
              by rw [hj]; simp⟩
          rw [mutThreads_cons_acquire]
          simp only [mutPattern, insideCS_0, insideCS_1, remMut_0, remMut_1, hj,
            Bool.false_eq_true, if_false, if_true] at hih ⊢
          exact Or.inl hih
      · -- stage 1: first mutation
        rw [isMerge.eq_def] at hm
        simp only [if_false, Bool.false_eq_true, stageSuffix, Bool.and_eq_true,
          beq_iff_eq] at hm
        obtain ⟨rfl, hm'⟩ := hm
        rw [lockValid] at hv
        cases hj : insideCS j with
        | true => exact absurd ⟨insideCS_1, hj⟩ hinv3
        | false =>
          have hih := ih 2 j held (by simpa [stageSuffix] using hm') hv
            ⟨by rw [insideCS_2]; rw [insideCS_1] at hinv1; exact hinv1, hinv2,
              by rw [insideCS_2, hj]; simp⟩
          rw [mutThreads_cons_mutate]
          simp only [mutPattern, insideCS_1, insideCS_2, remMut_1, remMut_2, hj,
            Bool.false_eq_true, if_false, if_true] at hih ⊢
          rw [hih]
          rfl
      · -- stage 2: second mutation
        rw [isMerge.eq_def] at hm
        simp only [if_false, Bool.false_eq_true, stageSuffix, Bool.and_eq_true,
          beq_iff_eq] at hm
        obtain ⟨rfl, hm'⟩ := hm
        rw [lockValid] at hv
        cases hj : insideCS j with
        | true => exact absurd ⟨insideCS_2, hj⟩ hinv3
        | false =>
          have hih := ih 3 j held (by simpa [stageSuffix] using hm') hv
            ⟨by rw [insideCS_3]; rw [insideCS_2] at hinv1; exact hinv1, hinv2,
              by rw [insideCS_3, hj]; simp⟩
          rw [mutThreads_cons_mutate]
          simp only [mutPattern, insideCS_2, insideCS_3, remMut_2, remMut_3, hj,
            Bool.false_eq_true, if_false, if_true] at hih ⊢
          rw [hih]
          rfl
      · -- stage 3: release
        rw [isMerge.eq_def] at hm
        simp only [if_false, Bool.false_eq_true, stageSuffix, Bool.and_eq_true,
          beq_iff_eq] at hm
        obtain ⟨rfl, hm'⟩ := hm
        rw [lockValid] at hv
        simp only [Bool.and_eq_true] at hv
        obtain ⟨hv1, hv2⟩ := hv
        cases hj : insideCS j with
        | true => exact absurd ⟨insideCS_3, hj⟩ hinv3
        | false =>
          have hih := ih 4 j (holderErase k held) (by simpa [stageSuffix] using hm') hv2
            ⟨by rw [insideCS_4, hj]; simpa using hinv2,
              by rw [holderErase_of_lookup_none k _ hinv2]; exact hinv2,
              by rw [insideCS_4]; simp⟩
          rw [mutThreads_cons_release]
          simp only [mutPattern, insideCS_3, insideCS_4, remMut_3, remMut_4, hj,
            Bool.false_eq_true, if_false, if_true] at hih ⊢
          simp only [List.replicate_zero, List.append_nil, List.nil_append] at hih ⊢
          rcases hih with hih | hih
          · exact hih
          · exact hih
      · -- stage 4: work outside the lock
        rw [isMerge.eq_def] at hm
        simp only [if_false, Bool.false_eq_true, stageSuffix, Bool.and_eq_true,
          beq_iff_eq] at hm
        obtain ⟨rfl, hm'⟩ := hm
        rw [lockValid] at hv
        have hih := ih 5 j held (by simpa [stageSuffix] using hm') hv
          ⟨by rw [insideCS_5]; rw [insideCS_4] at hinv1; exact hinv1, hinv2,
            by rw [insideCS_5]; simp⟩
        rw [mutThreads_cons_work]
        simp only [mutPattern, insideCS_4, insideCS_5, remMut_4, remMut_5] at hih ⊢
        exact hih
      · -- stage ≥ 5: no events left, merge impossible
        rw [isMerge.eq_def] at hm
        simp [stageSuffix] at hm
    | true =>
      rcases j with _ | _ | _ | _ | _ | n
      · -- thread 1, stage 0: acquire
        rw [isMerge.eq_def] at hm
        simp only [if_true, stageSuffix, Bool.and_eq_true, beq_iff_eq] at hm
        obtain ⟨rfl, hm'⟩ := hm
        rw [lockValid] at hv
        simp only [Bool.and_eq_true] at hv
        obtain ⟨hv1, hv2⟩ := hv
        cases hi : insideCS i with
        | true =>
          rw [hi] at hinv1
          simp only [if_true] at hinv1
          rw [hinv1] at hv1
          simp [Option.isNone] at hv1
        | false =>
          have hnone : holderLookup k held = none := Option.isNone_iff_eq_none.mp hv1
          have hih := ih i 1 ((k, true) :: held) (by simpa [stageSuffix] using hm') hv2
            ⟨by rw [holderLookup_cons_self, insideCS_1, hi]; simp,
              by rw [holderErase_cons_self]; exact hnone,
              by rw [hi]; simp⟩
          rw [mutThreads_cons_acquire]
          simp only [mutPattern, insideCS_0, insideCS_1, remMut_0, remMut_1, hi,
            Bool.false_eq_true, if_false, if_true] at hih ⊢
          exact Or.inr hih
      · -- thread 1, stage 1: first mutation
        rw [isMerge.eq_def] at hm
        simp only [if_true, stageSuffix, Bool.and_eq_true, beq_iff_eq] at hm
        obtain ⟨rfl, hm'⟩ := hm
        rw [lockValid] at hv
        cases hi : insideCS i with
        | true => exact absurd ⟨hi, insideCS_1⟩ hinv3
        | false =>
          have hih := ih i 2 held (by simpa [stageSuffix] using hm') hv
            ⟨by rw [insideCS_2, hi]; rw [insideCS_1, hi] at hinv1; exact hinv1, hinv2,
              by rw [insideCS_2, hi]; simp⟩
          rw [mutThreads_cons_mutate]
          simp only [mutPattern, insideCS_1, insideCS_2, remMut_1, remMut_2, hi,
            Bool.false_eq_true, if_false, if_true] at hih ⊢
          rw [hih]
          rfl
      · -- thread 1, stage 2: second mutation
        rw [isMerge.eq_def] at hm
        simp only [if_true, stageSuffix, Bool.and_eq_true, beq_iff_eq] at hm
        obtain ⟨rfl, hm'⟩ := hm
        rw [lockValid] at hv
        cases hi : insideCS i with
        | true => exact absurd ⟨hi, insideCS_2⟩ hinv3
        | false =>
          have hih := ih i 3 held (by simpa [stageSuffix] using hm') hv
            ⟨by rw [insideCS_3, hi]; rw [insideCS_2, hi] at hinv1; exact hinv1, hinv2,
              by rw [insideCS_3, hi]; simp⟩
          rw [mutThreads_cons_mutate]
          simp only [mutPattern, insideCS_2, insideCS_3, remMut_2, remMut_3, hi,
            Bool.false_eq_true, if_false, if_true] at hih ⊢
          rw [hih]
          rfl
      · -- thread 1, stage 3: release
        rw [isMerge.eq_def] at hm
        simp only [if_true, stageSuffix, Bool.and_eq_true, beq_iff_eq] at hm
        obtain ⟨rfl, hm'⟩ := hm
        rw [lockValid] at hv
        simp only [Bool.and_eq_true] at hv
        obtain ⟨hv1, hv2⟩ := hv
        cases hi : insideCS i with
        | true =>
          rw [hi] at hinv1
          simp only [if_true] at hinv1
          rw [hinv1] at hv1
          simp at hv1
        | false =>
          have hih := ih i 4 (holderErase k held) (by simpa [stageSuffix] using hm') hv2
            ⟨by rw [insideCS_4, hi]; simpa using hinv2,
              by rw [holderErase_of_lookup_none k _ hinv2]; exact hinv2,
              by rw [insideCS_4]; simp⟩
          rw [mutThreads_cons_release]
          simp only [mutPattern, insideCS_3, insideCS_4, remMut_3, remMut_4, hi,
            Bool.false_eq_true, if_false, if_true] at hih ⊢
          simp only [List.replicate_zero, List.append_nil, List.nil_append] at hih ⊢
          rcases hih with hih | hih
          · exact hih
          · exact hih
      · -- thread 1, stage 4: work outside the lock
        rw [isMerge.eq_def] at hm
        simp only [if_true, stageSuffix, Bool.and_eq_true, beq_iff_eq] at hm
        obtain ⟨rfl, hm'⟩ := hm
        rw [lockValid] at hv
        have hih := ih i 5 held (by simpa [stageSuffix] using hm') hv
          ⟨by rw [insideCS_5]; rw [insideCS_4] at hinv1; exact hinv1, hinv2,
            by rw [insideCS_5]; simp⟩
        rw [mutThreads_cons_work]
        simp only [mutPattern, insideCS_4, insideCS_5, remMut_4, remMut_5] at hih ⊢
        exact hih
      · -- thread 1, stage ≥ 5: impossible
        rw [isMerge.eq_def] at hm
        simp [stageSuffix] at hm

end DonCrawler

namespace DonCrawler

/-- Claim C1: two concurrent clone/fetch invocations whose repositories
share a lock key are serialized — in every mutex-respecting interleaving
their filesystem mutations form two uninterleaved blocks — while
invocations with different keys can interleave their mutations fully in
parallel; and the lock is acquired exactly around the clone/fetch
mutations and released immediately after (the same sequence whether the
clone succeeds or fails), with the activity computation outside it. -/
theorem c1_per_repo_lock_serializes (r1 r2 : Repository) :
    (∀ tr, repoLockKey r1 = repoLockKey r2 →
      isMerge (cloneAndLogActivitySteps (repoLockKey r1))
        (cloneAndLogActivitySteps (repoLockKey r2)) tr = true →
      lockValid [] tr = true →
      mutThreads tr = [false, false, true, true] ∨
        mutThreads tr = [true, true, false, false]) ∧
    (repoLockKey r1 ≠ repoLockKey r2 →
      ∃ tr, isMerge (cloneAndLogActivitySteps (repoLockKey r1))
          (cloneAndLogActivitySteps (repoLockKey r2)) tr = true ∧
        lockValid [] tr = true ∧
        mutThreads tr = [false, true, false, true]) ∧
    (∀ k, cloneAndLogActivitySteps k =
      [.acquire k] ++ [.mutate k 0, .mutate k 1] ++ [.release k] ++ [.work]) := by
  refine ⟨?_, ?_, fun k => rfl⟩
  · intro tr heq hm hvv
    rw [← heq] at hm
    have hmp := lockValid_merge_mutPattern (repoLockKey r1) tr 0 0 [] hm hvv
      ⟨by simp [holderLookup, insideCS_0], rfl, by simp [insideCS_0]⟩
    simp only [mutPattern, insideCS_0, remMut_0, Bool.false_eq_true, if_false] at hmp
    rcases hmp with hmp | hmp
    · exact Or.inl (by simpa using hmp)
    · exact Or.inr (by simpa using hmp)
  · intro hne
    have h12 : (repoLockKey r1 == repoLockKey r2) = false := by
      simpa using hne
    have h21 : (repoLockKey r2 == repoLockKey r1) = false := by
      simpa using (Ne.symm hne)
    refine ⟨[(false, .acquire (repoLockKey r1)), (true, .acquire (repoLockKey r2)),
      (false, .mutate (repoLockKey r1) 0), (true, .mutate (repoLockKey r2) 0),
      (false, .mutate (repoLockKey r1) 1), (true, .mutate (repoLockKey r2) 1),
      (false, .release (repoLockKey r1)), (true, .release (repoLockKey r2)),
      (false, .work), (true, .work)], ?_, ?_, rfl⟩
    · simp [cloneAndLogActivitySteps, stageSuffix, isMerge]
    · simp [lockValid, holderLookup, holderErase, h12, h21, Option.isNone]

/-- Witness for C1: two workers on the repository `org/repo` at
`github.com` (lock key `github.com/org/repo`) admit the sequential
interleaving, whose mutations form two blocks; two workers on
repositories with different lock keys admit a fully interleaved
execution. -/
theorem c1_per_repo_lock_serializes_witness :
    (mutThreads [(false, .acquire "github.com/org/repo"),
        (false, .mutate "github.com/org/repo" 0), (false, .mutate "github.com/org/repo" 1),
        (false, .release "github.com/org/repo"), (false, .work),
        (true, .acquire "github.com/org/repo"),
        (true, .mutate "github.com/org/repo" 0), (true, .mutate "github.com/org/repo" 1),
        (true, .release "github.com/org/repo"), (true, .work)] =
          [false, false, true, true] ∨
      mutThreads [(false, .acquire "github.com/org/repo"),
        (false, .mutate "github.com/org/repo" 0), (false, .mutate "github.com/org/repo" 1),
        (false, .release "github.com/org/repo"), (false, .work),
        (true, .acquire "github.com/org/repo"),
        (true, .mutate "github.com/org/repo" 0), (true, .mutate "github.com/org/repo" 1),
        (true, .release "github.com/org/repo"), (true, .work)] =
          [true, true, false, false]) ∧
    ∃ tr, isMerge
        (cloneAndLogActivitySteps (repoLockKey
          ⟨"org/repo", "", "", "", "github.com", "https://github.com/org/repo.git",
            "main", 0, 0, ⟨"id", "pub", "", ""⟩⟩))
        (cloneAndLogActivitySteps (repoLockKey
          ⟨"other/thing", "", "", "", "gitlab.com", "https://gitlab.com/other/thing.git",
            "main", 0, 0, ⟨"id2", "pub2", "", ""⟩⟩)) tr = true ∧
      lockValid [] tr = true ∧
      mutThreads tr = [false, true, false, true] :=
  ⟨(c1_per_repo_lock_serializes
      ⟨"org/repo", "", "", "", "github.com", "https://github.com/org/repo.git", "main",
        0, 0, ⟨"id", "pub", "", ""⟩⟩
      ⟨"org/repo", "", "", "", "github.com", "https://github.com/org/repo.git", "main",
        0, 0, ⟨"id", "pub", "", ""⟩⟩).1
      [(false, .acquire "github.com/org/repo"),
        (false, .mutate "github.com/org/repo" 0), (false, .mutate "github.com/org/repo" 1),
        (false, .release "github.com/org/repo"), (false, .work),
        (true, .acquire "github.com/org/repo"),
        (true, .mutate "github.com/org/repo" 0), (true, .mutate "github.com/org/repo" 1),
        (true, .release "github.com/org/repo"), (true, .work)]
      rfl (by decide) (by decide),
    (c1_per_repo_lock_serializes
      ⟨"org/repo", "", "", "", "github.com", "https://github.com/org/repo.git", "main",
        0, 0, ⟨"id", "pub", "", ""⟩⟩
      ⟨"other/thing", "", "", "", "gitlab.com", "https://gitlab.com/other/thing.git",
        "main", 0, 0, ⟨"id2", "pub2", "", ""⟩⟩).2.1 (by decide)⟩

end DonCrawler
